import Mathlib

/-!
Verification of the TrackUI download-orchestration core against its
natural-language specification.

The development shallowly embeds the two source files:

* `gofile_downloader.py` — the content-tree resolver (`_build_content_tree`,
  `_resolve_naming_collision`), the chunked resumable fetcher
  (`_download_file`) and the pipeline driver (`download`);
* `app.py` — the job queue (`add_to_queue`, `process_queue`, the
  `/api/queue/...` handlers) and the external-process runner
  (`run_download`).

Pure helper functions from Python's `posixpath` module that the source
relies on (`join`, `splitext`, `dirname`, `basename`) are embedded
faithfully from CPython's definitions.  Machine time is modelled as
natural-number seconds; filesystem and network effects are modelled by
explicit input traces (lists of events describing what the environment
did at each interaction point).
-/

namespace TrackUI

/-! ### String helpers (Python `str` operations used by the source) -/

/-- `pat in s` for Python strings: `pat` occurs as a contiguous substring. -/
def containsSub (s pat : String) : Bool :=
  s.data.tails.any (fun t => pat.data.isPrefixOf t)

/-- Python `s[:n]` (first `n` characters). -/
def pyTake (s : String) (n : Nat) : String :=
  (s.data.take n).asString

/-- Python `s.strip()`: remove leading and trailing whitespace. -/
def pyStrip (s : String) : String :=
  (((s.data.dropWhile Char.isWhitespace).reverse.dropWhile
    Char.isWhitespace).reverse).asString

/-- Python `s.lower()` (for the ASCII text the runner inspects). -/
def strToLower (s : String) : String :=
  (s.data.map Char.toLower).asString

/-- Whether the string starts with the character `c`. -/
def headIs (s : String) (c : Char) : Bool :=
  match s.data with
  | [] => false
  | a :: _ => a = c

/-- Whether the string ends with the character `c`. -/
def lastIs (s : String) (c : Char) : Bool :=
  match s.data.getLast? with
  | none => false
  | some a => a = c

/-- Python `s.split('/')` (keeps empty fields). -/
def slashSplitAux (cur : List Char) : List Char → List String
  | [] => [cur.reverse.asString]
  | c :: rest =>
    if c = '/' then cur.reverse.asString :: slashSplitAux [] rest
    else slashSplitAux (c :: cur) rest

/-- Python `s.split('/')`. -/
def pySplit (s : String) : List String :=
  slashSplitAux [] s.data

/-- Python `s.rstrip('/')`. -/
def dropTrailingSlashes (s : String) : String :=
  ((s.data.reverse.dropWhile (fun c => c = '/')).reverse).asString

/-! ### Decimal rendering of counters

The Python source interpolates integers into strings (`f"({n})"`,
`f"Downloaded {n} files..."`).  We use Lean's `Nat.repr`, which renders
the same decimal digits as Python's `str(n)`.  The distinctness claims
about collision-resolved paths need that this rendering is injective and
consists of digit characters only; we prove both facts here. -/

/-- Decimal value of a digit character produced by `Nat.digitChar`. -/
def digitVal (c : Char) : Nat :=
  if c = '0' then 0 else if c = '1' then 1 else if c = '2' then 2 else
  if c = '3' then 3 else if c = '4' then 4 else if c = '5' then 5 else
  if c = '6' then 6 else if c = '7' then 7 else if c = '8' then 8 else
  if c = '9' then 9 else 0

/-- Number of decimal digits of `n`. -/
def numDigits (n : Nat) : Nat :=
  if _h : n < 10 then 1 else numDigits (n / 10) + 1
decreasing_by exact Nat.div_lt_self (by omega) (by omega)

/-- Decode a digit string back to its value (left fold, most significant
digit first). -/
def decDigits (l : List Char) : Nat :=
  l.foldl (fun a c => a * 10 + digitVal c) 0

/-! ### `posixpath` model

Embeddings of the CPython `posixpath` functions the source uses:
`join`, `splitext`, `dirname`, `basename` (with `sep = '/'` and
`extsep = '.'`). -/

/-- `posixpath.join(a, b)` for two components (the only arity used). -/
def pathJoin (a b : String) : String :=
  if headIs b '/' then b
  else if a = "" ∨ lastIs a '/' then a ++ b
  else a ++ "/" ++ b

/-- Index of the last occurrence of `c` in `l`, if any
(Python `str.rfind`). -/
def lastIdxOf (c : Char) : List Char → Option Nat
  | [] => none
  | a :: rest =>
    match lastIdxOf c rest with
    | some k => some (k + 1)
    | none => if a = c then some 0 else none

/-- The split position chosen by CPython `genericpath._splitext`:
the index of the last `'.'`, provided it lies after the last `'/'` and at
least one non-dot character of the basename precedes it. -/
def splitextIdx (l : List Char) : Option Nat :=
  match lastIdxOf '.' l with
  | none => none
  | some d =>
    let start := match lastIdxOf '/' l with
      | none => 0
      | some k => k + 1
    if start ≤ d ∧ ((l.drop start).take (d - start)).any (fun c => c ≠ '.')
    then some d else none

/-- `posixpath.splitext(p)`: split off the extension. -/
def splitext (p : String) : String × String :=
  match splitextIdx p.data with
  | none => (p, "")
  | some d => ((p.data.take d).asString, (p.data.drop d).asString)

/-- One past the index of the last `'/'` (0 when there is none); the
common prefix length used by both `dirname` and `basename`. -/
def sepSplit (l : List Char) : Nat :=
  match lastIdxOf '/' l with
  | none => 0
  | some k => k + 1

/-- `posixpath.basename(p)`. -/
def basename (p : String) : String :=
  (p.data.drop (sepSplit p.data)).asString

/-- `posixpath.dirname(p)`. -/
def dirname (p : String) : String :=
  let head := p.data.take (sepSplit p.data)
  (if head.any (fun c => c ≠ '/')
   then (head.reverse.dropWhile (fun c => c = '/')).reverse
   else head).asString

/-! ### `GoFileDownloader._resolve_naming_collision`

The collision table `pathing_count : dict[str, int]` is modelled as a
function `String → Option Nat` (`none` = key absent). -/

/-- The collision table shared across one resolve invocation. -/
def PCount := String → Option Nat

/-- The empty table (fresh invocation). -/
def emptyPC : PCount := fun _ => none

/-- The suffixed path produced for counter value `n > 0`: `(n)` before
the extension for files, appended at the end for directories. -/
def suffixPath (filepath : String) (n : Nat) (is_dir : Bool) : String :=
  if is_dir then filepath ++ "(" ++ Nat.repr n ++ ")"
  else (splitext filepath).1 ++ "(" ++ Nat.repr n ++ ")" ++ (splitext filepath).2

/-- `_resolve_naming_collision(pathing_count, parent_dir, child_name,
is_dir)`: returns the chosen path and the updated table. -/
def resolve_naming_collision (pc : PCount) (parent_dir child_name : String)
    (is_dir : Bool) : String × PCount :=
  let filepath := pathJoin parent_dir child_name
  let newCount : Nat := match pc filepath with
    | some k => k + 1
    | none => 0
  let pc' : PCount := fun q => if q = filepath then some newCount else pc q
  if newCount > 0 then (suffixPath filepath newCount is_dir, pc')
  else (filepath, pc')

/-- The two suffix shapes (file vs. directory) never coincide for
positive counters unless the counters are equal, and never give back an
unsuffixed path; combined: occurrence outputs are pairwise distinct. -/
def outAt (fp : String) (n : Nat) (is_dir : Bool) : String :=
  if n = 0 then fp else suffixPath fp n is_dir

/-! ### Sequences of lookups against one shared collision table -/

/-- One lookup performed against the shared table during a resolve
invocation. -/
structure RCCall where
  parent : String
  child : String
  is_dir : Bool

/-- The candidate path of a lookup (the table key the source computes
with `path.join`). -/
def candidate (c : RCCall) : String := pathJoin c.parent c.child

/-- Run a sequence of lookups, threading the shared table; returns the
chosen paths in order and the final table. -/
def runResolve (pc : PCount) : List RCCall → List String × PCount
  | [] => ([], pc)
  | c :: rest =>
    let r := resolve_naming_collision pc c.parent c.child c.is_dir
    let rec_ := runResolve r.2 rest
    (r.1 :: rec_.1, rec_.2)

/-- The outputs the resolver is expected to produce for the occurrences
of one candidate path, starting after `k` prior occurrences. -/
def expectedOuts (fp : String) (k : Nat) : List RCCall → List String
  | [] => []
  | c :: rest =>
    if candidate c = fp
    then outAt fp k c.is_dir :: expectedOuts fp (k + 1) rest
    else expectedOuts fp k rest

/-- Outputs of a run restricted to the lookups whose candidate is `fp`. -/
def outsFor (fp : String) (calls : List RCCall) (outs : List String) :
    List String :=
  ((calls.zip outs).filter (fun p => candidate p.1 = fp)).map Prod.snd

/-- Encoding of "`fp` has had `k` prior occurrences" as a table entry:
absent for zero, else the stored counter is one less than the count. -/
def tableEntry (k : Nat) : Option Nat :=
  match k with
  | 0 => none
  | k + 1 => some k

/-! ### `app.py` — job queue and scheduler

The job dict of `add_to_queue` becomes a structure; the global
`download_queue` list is a `List Job`; the sections of code executed
under `queue_lock` become single atomic steps of a labelled transition
system; timestamps are abstract naturals.  The live `process` handle is
modelled by a boolean (`None` vs. present). -/

/-- The five job states of the queue (`job['status']`). -/
inductive JStatus where
  | queued
  | active
  | paused
  | completed
  | failed
deriving DecidableEq, Repr

/-- One entry of `download_queue` (the dict built in `add_to_queue`). -/
structure Job where
  id : Nat
  username : String
  platform : String
  url : Option String
  folder : Option String
  status : JStatus
  progress : Nat
  message : String
  hasProcess : Bool
  started_at : Option Nat
  completed_at : Option Nat
  files_downloaded : Nat
deriving DecidableEq, Repr

/-- The job dict created by `add_to_queue` (lines 227-240). -/
def mkJob (id : Nat) (username platform : String)
    (url folder : Option String) : Job :=
  { id := id
    username := username
    platform := platform
    url := url
    folder := folder
    status := .queued
    progress := 0
    message := "Waiting in queue..."
    hasProcess := false
    started_at := none
    completed_at := none
    files_downloaded := 0 }

/-- `sum(1 for j in download_queue if j['status'] == 'active')`. -/
def countActive (jobs : List Job) : Nat :=
  (jobs.filter (fun j => j.status = .active)).length

/-- `sum(1 for j in download_queue if j['status'] == 'queued')`. -/
def countQueued (jobs : List Job) : Nat :=
  (jobs.filter (fun j => j.status = .queued)).length

/-- The mutation applied to the admitted job (lines 274-276). -/
def markActive (j : Job) (now : Nat) : Job :=
  { j with
    status := .active
    started_at := some now
    message := "Starting download..." }

/-- Find the first `queued` job and mark it active; returns the updated
list and the index of the admitted job. -/
def markFirstQueued (now : Nat) : List Job → Option (List Job × Nat)
  | [] => none
  | j :: rest =>
    if j.status = .queued then some (markActive j now :: rest, 0)
    else (markFirstQueued now rest).map (fun p => (j :: p.1, p.2 + 1))

/-- The admission step `process_queue` performs while holding
`queue_lock` (lines 255-276): count the active jobs, find the first
queued job, and mark it active only when the count is below the cap.
Returns the updated queue and the index of the admitted job, if any. -/
def drainLock (maxConcurrent now : Nat) (jobs : List Job) :
    List Job × Option Nat :=
  if maxConcurrent ≤ countActive jobs then (jobs, none)
  else
    match markFirstQueued now jobs with
    | none => (jobs, none)
    | some p => (p.1, some p.2)

/-- `api_queue_pause` (lines 2209-2215): first job with the given id
that is `active` becomes `paused` (its process is terminated on the
side). -/
def api_queue_pause (queue_id : Nat) : List Job → List Job
  | [] => []
  | j :: rest =>
    if j.id = queue_id ∧ j.status = .active
    then { j with status := .paused } :: rest
    else j :: api_queue_pause queue_id rest

/-- `api_queue_resume` (lines 2222-2228): first job with the given id
that is `paused` becomes `queued` with message `Resuming...`; a fresh
drain thread is spawned (a separate step of the transition system). -/
def api_queue_resume (queue_id : Nat) : List Job → List Job
  | [] => []
  | j :: rest =>
    if j.id = queue_id ∧ j.status = .paused
    then { j with status := .queued, message := "Resuming..." } :: rest
    else j :: api_queue_resume queue_id rest

/-- `api_queue_delete` (lines 2235-2241): pop the first job with the
given id. -/
def api_queue_delete (queue_id : Nat) : List Job → List Job
  | [] => []
  | j :: rest =>
    if j.id = queue_id then rest
    else j :: api_queue_delete queue_id rest

/-- `api_queue_clear` (lines 2248-2254): drop every job in a terminal
state. -/
def clear_finished : List Job → List Job
  | [] => []
  | j :: rest =>
    if j.status = .completed ∨ j.status = .failed then clear_finished rest
    else j :: clear_finished rest

/-- Queue state: the `download_queue` list plus the
`queue_id_counter`. -/
structure QState where
  jobs : List Job
  counter : Nat

/-- Atomic steps of the queue, one per lock-protected code section that
mutates `download_queue`.  `runnerWrite` covers every job-field write
`run_download` performs on the job it owns: the runner never writes
`queued`, `active` or `paused` into `status` (it only ever stores
`completed` or `failed`, lines 406/414/420/424), and it never changes
`id`. -/
inductive QStep (maxConcurrent : Nat) : QState → QState → Prop where
  | enqueue (s : QState) (username platform : String)
      (url folder : Option String) :
      QStep maxConcurrent s
        ⟨s.jobs ++ [mkJob (s.counter + 1) username platform url folder],
         s.counter + 1⟩
  | enqueueBot (s : QState) (j : Job) (hq : j.status = .queued) :
      QStep maxConcurrent s ⟨s.jobs ++ [j], s.counter⟩
  | drain (s : QState) (now : Nat) :
      QStep maxConcurrent s ⟨(drainLock maxConcurrent now s.jobs).1, s.counter⟩
  | pause (s : QState) (queue_id : Nat) :
      QStep maxConcurrent s ⟨api_queue_pause queue_id s.jobs, s.counter⟩
  | resume (s : QState) (queue_id : Nat) :
      QStep maxConcurrent s ⟨api_queue_resume queue_id s.jobs, s.counter⟩
  | delete (s : QState) (queue_id : Nat) :
      QStep maxConcurrent s ⟨api_queue_delete queue_id s.jobs, s.counter⟩
  | clear (s : QState) :
      QStep maxConcurrent s ⟨clear_finished s.jobs, s.counter⟩
  | runnerWrite (s : QState) (i : Nat) (j' : Job) (hi : i < s.jobs.length)
      (hid : j'.id = (s.jobs[i]).id)
      (hst : j'.status = (s.jobs[i]).status
        ∨ j'.status = .completed ∨ j'.status = .failed) :
      QStep maxConcurrent s ⟨s.jobs.set i j', s.counter⟩

/-- The initial state: empty queue, counter 0 (lines 73 and 220). -/
def initQ : QState := ⟨[], 0⟩

/-- States reachable from startup by any interleaving of the atomic
steps. -/
def ReachableQ (maxConcurrent : Nat) (s : QState) : Prop :=
  Relation.ReflTransGen (QStep maxConcurrent) initQ s

/-! ### Counting lemmas for the concurrency-cap invariant -/

/-- Contribution of one job to `countActive`. -/
def cA (j : Job) : Nat := if j.status = .active then 1 else 0

/-! ### The `process_queue` drain loop as a whole (for C5)

One invocation of `process_queue` (lines 250-285) reads
`max_concurrent_downloads` once, before entering its `while True` loop,
and then loops: admit under the lock, or sleep and re-check while queued
jobs remain, or return.  The environment is modelled by
`getSetting : Nat → Nat`, giving the value the settings store would
return at each pass; the code only ever consults it at pass 0.  In this
sequential model no runner finishes, so the loop is cut off by `fuel`;
it returns the queue together with a log of every pass (the active count
it observed and the index it admitted, if any). -/

/-- What one pass of the drain loop observed and did. -/
structure PassEvent where
  pass : Nat
  activeCount : Nat
  admitted : Option Nat
deriving DecidableEq, Repr

/-- The `while True` loop body of `process_queue`, iterated with fuel.
`pass` counts loop iterations and doubles as the abstract timestamp for
`started_at`. -/
def pqLoop (maxConcurrent : Nat) :
    Nat → Nat → List Job → List PassEvent → List Job × List PassEvent
  | 0, _, jobs, log => (jobs, log)
  | fuel + 1, pass, jobs, log =>
    let ac := countActive jobs
    match markFirstQueued pass jobs with
    | none =>
      if countQueued jobs = 0 then (jobs, log ++ [⟨pass, ac, none⟩])
      else pqLoop maxConcurrent fuel (pass + 1) jobs (log ++ [⟨pass, ac, none⟩])
    | some p =>
      if maxConcurrent ≤ ac then
        if countQueued jobs = 0 then (jobs, log ++ [⟨pass, ac, none⟩])
        else pqLoop maxConcurrent fuel (pass + 1) jobs
          (log ++ [⟨pass, ac, none⟩])
      else pqLoop maxConcurrent fuel (pass + 1) p.1
        (log ++ [⟨pass, ac, some p.2⟩])

/-- One invocation of `process_queue`: the setting is read once, at
line 252, before the loop. -/
def process_queue (getSetting : Nat → Nat) (fuel : Nat) (jobs : List Job) :
    List Job × List PassEvent :=
  pqLoop (getSetting 0) fuel 0 jobs []

/-! ### `run_download` — the external-process Runner (lines 287-453)

The subprocess is modelled by an input trace: a list of line events (one
per line `readline` delivers) followed by how the stream ends.  Each
event carries the line text, the clock value when the line arrived
(`last_activity = time.time()`, line 384) and the clock value at the
inactivity check (`time.time()`, line 404), plus whether the pause API
flipped the job's status to `paused` before this iteration's status
check (line 379).  Wall-clock time is in whole seconds.

If the stream never ends (a hung tool that stays silent), `readline`
blocks forever: the runner thread is stuck and nothing after the loop —
including the `finally` block — runs.  That is the `hang` tail.

Command construction, `Popen` and the filesystem are outside the model;
a failed spawn is the `spawnError` input (the `except` branch).  The
notification text built in the `finally` block uses the emoji literals
of the source; only its branch structure matters here, so the three
variants are kept with plain markers. -/

/-- One delivered output line, with the observation points around it. -/
structure LineEvent where
  line : String
  arrive : Nat
  check : Nat
  pauseFlip : Bool
deriving DecidableEq, Repr

/-- How the output stream ends: EOF with an exit code, or never (hung
subprocess with no further output). -/
inductive ProcTail where
  | eof (returncode : Int)
  | hang
deriving DecidableEq, Repr

/-- Mutable state of one runner execution: the shared job record, the
local `files_count`, whether `process.terminate()` was called, and the
trace of values written to `job['files_downloaded']` (ghost, for the
monotonicity claim). -/
structure RunSt where
  job : Job
  filesCount : Nat
  terminated : Bool
  filesWrites : List Nat
deriving DecidableEq, Repr

/-- The line-parsing block (lines 388-401). -/
def parseLine (st : RunSt) (line : String) : RunSt :=
  if line ≠ "" then
    if containsSub line "Downloading" ∨ containsSub line ".jpg"
        ∨ containsSub line ".mp4" ∨ containsSub line ".png" then
      let fc := st.filesCount + 1
      { st with
        filesCount := fc
        job := { st.job with
          files_downloaded := fc
          message := "Downloaded " ++ Nat.repr fc ++ " files..." }
        filesWrites := st.filesWrites ++ [fc] }
    else if containsSub line "Skipping" then
      { st with job := { st.job with message := pyTake line 80 } }
    else if containsSub (strToLower line) "error" ∨ containsSub line "Error" then
      { st with job := { st.job with
        message := "Error: " ++ pyTake line 60 } }
    else if line.length > 10 then
      { st with job := { st.job with message := pyTake line 80 } }
    else st
  else st

/-- How the `for line in iter(process.stdout.readline, '')` loop ends. -/
inductive LoopExit where
  | pausedExit (st : RunSt)
  | timeoutExit (st : RunSt)
  | consumed (st : RunSt)
deriving DecidableEq, Repr

/-- The external pause write, observable at the top of the iteration. -/
def pauseFlipSt (st : RunSt) (e : LineEvent) : RunSt :=
  if e.pauseFlip then { st with job := { st.job with status := .paused } }
  else st

/-- The pause exit path (lines 380-382): terminate, set the message,
return without touching `status`. -/
def pausedExitSt (st : RunSt) : RunSt :=
  { st with
    terminated := true
    job := { st.job with message := "Download paused" } }

/-- The timeout exit path (lines 405-409). -/
def timeoutExitSt (st : RunSt) (e : LineEvent) : RunSt :=
  { st with
    terminated := true
    job := { st.job with
      status := .failed
      message := "Timeout after 10 minutes of inactivity"
      completed_at := some e.check } }

/-- The read loop (lines 378-409).  Per iteration: the paused check, the
`last_activity` reset (to `e.arrive`), strip, the parse block, then the
inactivity check — whose reference point is the `last_activity` value
set in this very iteration, so it compares `e.check` with `e.arrive`. -/
def runLoop (st : RunSt) : List LineEvent → LoopExit
  | [] => .consumed st
  | e :: rest =>
    if (pauseFlipSt st e).job.status = .paused then
      .pausedExit (pausedExitSt (pauseFlipSt st e))
    else
      if e.check - e.arrive > 10 * 60 then
        .timeoutExit
          (timeoutExitSt (parseLine (pauseFlipSt st e) (pyStrip e.line)) e)
      else runLoop (parseLine (pauseFlipSt st e) (pyStrip e.line)) rest

/-- Result of one runner execution, as observable from outside. -/
structure RunResult where
  blocked : Bool
  job : Job
  notifs : List String
  terminated : Bool
  filesWrites : List Nat
  syncUpdated : Bool
deriving DecidableEq, Repr

/-- The notification text chosen in the `finally` block
(lines 439-453); the emoji prefixes of the source are abbreviated to
ASCII markers. -/
def notifText (j : Job) (filesCount : Nat) : String :=
  let display := if j.platform = "coomer" ∧ containsSub j.username "/"
    then ((pySplit j.username).getD 1 "") else j.username
  if j.status = .completed then
    if filesCount > 0 then
      "[ok] " ++ display ++ ": Downloaded " ++ Nat.repr filesCount
        ++ " new files!"
    else "[ok] " ++ display ++ ": Up to date (no new content)"
  else "[fail] " ++ display ++ ": " ++ j.message

/-- The `finally` block (lines 427-453): stamp `completed_at`, clear the
process handle, send exactly one notification. -/
def finallyBlock (st : RunSt) (tEnd : Nat) (syncUpdated : Bool) : RunResult :=
  let j := { st.job with completed_at := some tEnd, hasProcess := false }
  { blocked := false
    job := j
    notifs := [notifText j st.filesCount]
    terminated := st.terminated
    filesWrites := st.filesWrites
    syncUpdated := syncUpdated }

/-- Runner state just after `job['process'] = process` (lines 362-374):
message set at line 362, handle stored, `files_count = 0`. -/
def initRunSt (j0 : Job) : RunSt :=
  { job := { j0 with
      message := "Initializing gallery-dl..."
      hasProcess := true }
    filesCount := 0
    terminated := false
    filesWrites := [] }

/-- `run_download(job)`: the whole runner execution over one input
trace.  `spawnError` models `subprocess.Popen` raising; `tEnd` is the
wall clock when the `finally` block runs. -/
def run_download (j0 : Job) (spawnError : Option String)
    (events : List LineEvent) (tail : ProcTail) (tEnd : Nat) : RunResult :=
  match spawnError with
  | some e =>
    finallyBlock
      { job := { j0 with status := .failed, message := "Error: " ++ e }
        filesCount := 0
        terminated := false
        filesWrites := [] } tEnd false
  | none =>
    match runLoop (initRunSt j0) events with
    | .pausedExit st => finallyBlock st tEnd false
    | .timeoutExit st => finallyBlock st tEnd false
    | .consumed st =>
      match tail with
      | .hang =>
        { blocked := true
          job := st.job
          notifs := []
          terminated := st.terminated
          filesWrites := st.filesWrites
          syncUpdated := false }
      | .eof rc =>
        if rc = 0 then
          finallyBlock { st with job := { st.job with
            status := .completed
            message := "Completed! Downloaded " ++ Nat.repr st.filesCount
              ++ " files" } } tEnd true
        else
          finallyBlock { st with job := { st.job with
            status := .failed
            message := "Failed with exit code " ++ toString rc } } tEnd false

/-! ### `GoFileDownloader._download_file` (lines 237-343)

The filesystem and the network are the environment: each retry-loop
iteration is driven by one `AttemptEnv` describing what the environment
did during that attempt.  `partSize` is the size of a pre-existing
`.part` file (0 when absent), matching lines 255-260; `RespEnv`
describes the HTTP response and what happened while streaming it. -/

/-- The HTTP response seen by one attempt. -/
structure RespEnv where
  statusCode : Nat
  contentLength : Option Nat
  contentRangeTotal : Option Nat
  stopMidStream : Bool
  finalTmpSize : Nat
deriving DecidableEq, Repr

/-- What the environment did during one iteration of the retry loop. -/
inductive AttemptEnv where
  | stopped
  | noResponse
  | timeoutExc
  | otherExc (msg : String)
  | resp (partSize : Nat) (r : RespEnv)
deriving DecidableEq, Repr

/-- Outcome of one iteration of the retry loop. -/
inductive AOut where
  | halt (success : Bool) (errs : List String)
  | retry (errs : List String)
deriving DecidableEq, Repr

/-- One iteration of the `for attempt in range(self._number_retries)`
body, following the source's control flow exactly. -/
def attemptStep (filename : String) (env : AttemptEnv) : AOut :=
  match env with
  | .stopped => .halt false []
  | .noResponse => .retry []
  | .timeoutExc => .retry []
  | .otherExc m => .retry ["Error downloading " ++ filename ++ ": " ++ m]
  | .resp partSize r =>
    if r.statusCode = 403 ∨ r.statusCode = 404 ∨ r.statusCode = 405
        ∨ r.statusCode = 500 then
      .halt false ["HTTP " ++ Nat.repr r.statusCode ++ " for " ++ filename]
    else if partSize = 0 ∧ ¬(r.statusCode = 200 ∨ r.statusCode = 206) then
      .retry []
    else if partSize > 0 ∧ r.statusCode ≠ 206 then
      .retry []
    else
      let totalSize : Nat :=
        if partSize = 0 then r.contentLength.getD 0
        else match r.contentRangeTotal with
          | some t => t
          | none => 0
      if totalSize = 0 then
        .halt false ["Could not determine size for " ++ filename]
      else if r.stopMidStream then
        .halt false []
      else if r.finalTmpSize = totalSize then
        .halt true []
      else
        .retry []

/-- Observable result of `_download_file`. -/
structure DFRes where
  success : Bool
  errors : List String
  attemptsUsed : Nat
  filesDelta : Nat
deriving DecidableEq, Repr

/-- The retry loop over the environments of the (at most
`number_retries`) attempts; falling off the loop returns `False`
(line 343). -/
def downloadLoop (filename : String) : List AttemptEnv → List String → Nat →
    DFRes
  | [], errs, used =>
    { success := false
      errors := errs
      attemptsUsed := used
      filesDelta := 0 }
  | env :: rest, errs, used =>
    match attemptStep filename env with
    | .halt ok newErrs =>
      { success := ok
        errors := errs ++ newErrs
        attemptsUsed := used + 1
        filesDelta := if ok then 1 else 0 }
    | .retry newErrs => downloadLoop filename rest (errs ++ newErrs) (used + 1)

/-- `_download_file(file_info)`: skip when the destination already
exists non-empty (lines 242-245), else run the retry loop. -/
def download_file (filename : String) (destExistsNonEmpty : Bool)
    (envs : List AttemptEnv) : DFRes :=
  if destExistsNonEmpty then
    { success := true, errors := [], attemptsUsed := 0, filesDelta := 1 }
  else downloadLoop filename envs [] 0

/-! ### `GoFileDownloader._build_content_tree` (lines 165-235) and
`download` (lines 345-435)

The remote content graph is embedded as a tree: what the repeated
metadata fetches would deliver for the root id and, recursively, for
each child folder id.  `GTree` covers every branch of the source's
response handling; `GChildren` is the ordered view of
`children.values()`. -/

mutual
/-- What the metadata fetch plus response checks yield for one content
id. -/
inductive GTree where
  | noResponse
  | badJson (e : String)
  | apiError (s : String)
  | passworded
  | single (name link : String)
  | gfolder (name : String) (children : GChildren)

/-- Ordered children of a folder. -/
inductive GChildren where
  | nil
  | consFile (name link : String) (rest : GChildren)
  | consFolder (id : String) (sub : GTree) (rest : GChildren)
end

/-- One entry of `_files_info` as `_register_file` stores it
(lines 133-139): stringified index, `path.dirname`, `path.basename`,
link. -/
structure RegFile where
  idx : Nat
  dir : String
  filename : String
  link : String
deriving DecidableEq, Repr

/-- State threaded through the tree build: the shared collision table,
the registered files, the `itertools.count` index, the error list and
the `makedirs` calls issued (in order). -/
structure BuildSt where
  pcount : PCount
  files : List RegFile
  nextIdx : Nat
  errors : List String
  mkdirs : List String

/-- `_register_file` (lines 133-139). -/
def register_file (st : BuildSt) (filepath link : String) : BuildSt :=
  { st with
    files := st.files ++
      [{ idx := st.nextIdx, dir := dirname filepath,
         filename := basename filepath, link := link }]
    nextIdx := st.nextIdx + 1 }

mutual
/-- `_build_content_tree(parent_dir, content_id, ...)`: the recursive
walk, with the stop event fixed for the walk (`stop`). -/
def build_content_tree (stop : Bool) (parent_dir content_id : String)
    (t : GTree) (st : BuildSt) : BuildSt :=
  match t with
  | .noResponse =>
    { st with errors := st.errors ++
        ["Failed to fetch content from the contents endpoint for "
          ++ content_id] }
  | .badJson e =>
    { st with errors := st.errors ++ ["Failed to parse response: " ++ e] }
  | .apiError s =>
    { st with errors := st.errors ++ ["API error: " ++ s] }
  | .passworded =>
    { st with errors := st.errors ++
        ["Content is password protected. Please provide the correct password."] }
  | .single name link =>
    let r := resolve_naming_collision st.pcount parent_dir name false
    let st := { st with
      pcount := r.2
      mkdirs := st.mkdirs ++ [dirname r.1] }
    register_file st r.1 link
  | .gfolder name children =>
    let r := resolve_naming_collision st.pcount parent_dir name true
    let absolutePath := if basename parent_dir = content_id
      then parent_dir else r.1
    let st := { st with
      pcount := r.2
      mkdirs := st.mkdirs ++ [absolutePath] }
    build_children stop absolutePath children st

/-- The `for child in children.values()` loop, with the stop-event check
at the top of each iteration. -/
def build_children (stop : Bool) (absolutePath : String)
    (cs : GChildren) (st : BuildSt) : BuildSt :=
  match cs with
  | .nil => st
  | .consFile name link rest =>
    if stop then st
    else
      let r := resolve_naming_collision st.pcount absolutePath name false
      let st := register_file { st with pcount := r.2 } r.1 link
      build_children stop absolutePath rest st
  | .consFolder id sub rest =>
    if stop then st
    else
      let st := build_content_tree stop absolutePath id sub st
      build_children stop absolutePath rest st
end

/-- The state `download` starts the tree build with: empty table, no
files, index 0, the errors accumulated before the build (e.g. during
authentication), no directories yet. -/
def initBuildSt (errs : List String) : BuildSt :=
  { pcount := emptyPC, files := [], nextIdx := 0, errors := errs,
    mkdirs := [] }

/-- `_parse_content_id` (lines 121-131). -/
def parse_content_id (url : String) : Option String :=
  let parts := pySplit (dropTrailingSlashes url)
  match parts.indexOf? "d" with
  | none => none
  | some i => if i + 1 < parts.length then parts.get? (i + 1) else none

/-- The result dict of `download`. -/
structure DLResult where
  success : Bool
  files_downloaded : Nat
  total_files : Nat
  errors : List String
  message : String
deriving DecidableEq, Repr

/-- `download()` (lines 345-435).  `tokenOk` is whether
`_set_account_token` succeeded and `authErrors` the errors it appended
on the way; the download phase over the worker pool is summarised by the
number of files it downloaded and the errors it appended (network
effects outside this model). -/
def download (url output_dir : String) (tokenOk : Bool)
    (authErrors : List String) (tree : GTree) (dlCount : Nat)
    (dlErrors : List String) : DLResult :=
  match parse_content_id url with
  | none =>
    { success := false, files_downloaded := 0, total_files := 0
      errors := ["Invalid GoFile URL - could not extract content ID"]
      message := "Invalid GoFile URL" }
  | some content_id =>
    if ¬tokenOk then
      { success := false, files_downloaded := 0, total_files := 0
        errors := if authErrors = [] then ["Failed to create GoFile account"]
          else authErrors
        message := "Authentication failed" }
    else
      let content_dir := pathJoin output_dir content_id
      let st := build_content_tree false content_dir content_id tree
        (initBuildSt authErrors)
      if st.files = [] then
        if st.errors ≠ [] then
          { success := false, files_downloaded := 0, total_files := 0
            errors := st.errors
            message := st.errors.getLastD "No files found" }
        else
          { success := true, files_downloaded := 0, total_files := 0
            errors := [], message := "No files found in content" }
      else
        { success := dlCount > 0 ∨ (st.errors ++ dlErrors) = []
          files_downloaded := dlCount
          total_files := st.files.length
          errors := st.errors ++ dlErrors
          message := "Downloaded " ++ Nat.repr dlCount ++ "/"
            ++ Nat.repr st.files.length ++ " files" }

/-- State after enqueueing one job from the initial state. -/
def qWit1 : QState :=
  ⟨initQ.jobs ++ [mkJob (initQ.counter + 1) "alice" "instagram" none none],
   initQ.counter + 1⟩

/-- State after one drain pass with cap 1 admitted that job. -/
def qWit2 : QState := ⟨(drainLock 1 7 qWit1.jobs).1, qWit1.counter⟩

/-- The job used by the C4 witness. -/
def jC4 : Job := markActive (mkJob 1 "alice" "instagram" none none) 0

/-- The loop state the C4 witness run ends in. -/
def stC4 : RunSt := pausedExitSt (pauseFlipSt (initRunSt jC4) ⟨"", 0, 0, true⟩)

/-- The loop state carried by any `LoopExit`. -/
def exitSt : LoopExit → RunSt
  | .pausedExit st => st
  | .timeoutExit st => st
  | .consumed st => st

/-- The paused job with a non-zero counter used against C9. -/
def jC9 : Job :=
  { mkJob 7 "bob" "tiktok" none none with
    status := .paused
    files_downloaded := 5 }

/-! ## Theorems -/

theorem digitVal_digitChar {d : Nat} (h : d < 10) :
    digitVal (Nat.digitChar d) = d := by
  interval_cases d <;> rfl

theorem digitChar_ne_of_lt_ten {d : Nat} (h : d < 10) {c : Char}
    (hc : c ∉ (['0','1','2','3','4','5','6','7','8','9'] : List Char)) :
    Nat.digitChar d ≠ c := by
  interval_cases d <;> simp_all [Nat.digitChar] <;> rintro rfl <;> simp_all

theorem numDigits_lt (n : Nat) (h : n < 10) : numDigits n = 1 := by
  rw [numDigits]; simp [h]

theorem numDigits_ge (n : Nat) (h : ¬ n < 10) :
    numDigits n = numDigits (n / 10) + 1 := by
  conv_lhs => rw [numDigits]
  simp [h]

theorem foldl_toDigitsCore (n : Nat) : ∀ (fuel a : Nat) (ds : List Char),
    n < fuel →
    (Nat.toDigitsCore 10 fuel n ds).foldl (fun a c => a * 10 + digitVal c) a
      = ds.foldl (fun a c => a * 10 + digitVal c) (a * 10 ^ numDigits n + n) := by
  induction n using Nat.strong_induction_on with
  | _ n ih =>
    intro fuel a ds hfuel
    match fuel, hfuel with
    | fuel + 1, hfuel =>
      rw [Nat.toDigitsCore]
      by_cases h10 : n < 10
      · have : n / 10 = 0 := Nat.div_eq_of_lt h10
        simp only [this, if_pos rfl, List.foldl]
        rw [digitVal_digitChar (Nat.mod_lt _ (by omega)), numDigits_lt n h10,
          Nat.mod_eq_of_lt h10]
        ring_nf
      · have hne : ¬ n / 10 = 0 := by
          have : 1 ≤ n / 10 := (Nat.one_le_div_iff (by omega)).mpr (by omega)
          omega
        rw [if_neg hne]
        have hlt : n / 10 < n := Nat.div_lt_self (by omega) (by omega)
        have hf : n / 10 < fuel := by omega
        rw [ih (n / 10) hlt fuel a _ hf]
        simp only [List.foldl]
        rw [digitVal_digitChar (Nat.mod_lt _ (by omega)), numDigits_ge n h10]
        have hdm : n / 10 * 10 + n % 10 = n := by
          have := Nat.div_add_mod n 10; omega
        have : (a * 10 ^ (numDigits (n / 10)) + n / 10) * 10 + n % 10
            = a * 10 ^ (numDigits (n / 10) + 1) + n := by
          calc (a * 10 ^ numDigits (n / 10) + n / 10) * 10 + n % 10
              = a * (10 ^ numDigits (n / 10) * 10) + (n / 10 * 10 + n % 10) := by
                ring
            _ = a * 10 ^ (numDigits (n / 10) + 1) + n := by rw [hdm, pow_succ]
        rw [this]

theorem decDigits_toDigits (n : Nat) :
    decDigits (Nat.toDigits 10 n) = n := by
  unfold decDigits Nat.toDigits
  rw [foldl_toDigitsCore n (n + 1) 0 [] (Nat.lt_succ_self n)]
  simp

theorem Nat_repr_injective : Function.Injective Nat.repr := by
  intro n m h
  have h2 : (Nat.toDigits 10 n).asString = (Nat.toDigits 10 m).asString := h
  have h3 : Nat.toDigits 10 n = Nat.toDigits 10 m := by
    have := congrArg String.data h2
    simpa [List.asString] using this
  calc n = decDigits (Nat.toDigits 10 n) := (decDigits_toDigits n).symm
    _ = decDigits (Nat.toDigits 10 m) := by rw [h3]
    _ = m := decDigits_toDigits m

theorem toDigitsCore_all_digits : ∀ (fuel n : Nat) (ds : List Char),
    ∀ c ∈ Nat.toDigitsCore 10 fuel n ds,
      c ∈ ds ∨ ∃ d, d < 10 ∧ c = Nat.digitChar d := by
  intro fuel
  induction fuel with
  | zero => intro n ds c hc; exact Or.inl hc
  | succ fuel ih =>
    intro n ds c hc
    rw [Nat.toDigitsCore] at hc
    by_cases h : n / 10 = 0
    · rw [if_pos h] at hc
      rcases List.mem_cons.mp hc with rfl | hmem
      · exact Or.inr ⟨n % 10, Nat.mod_lt _ (by omega), rfl⟩
      · exact Or.inl hmem
    · rw [if_neg h] at hc
      rcases ih (n / 10) (Nat.digitChar (n % 10) :: ds) c hc with hmem | hd
      · rcases List.mem_cons.mp hmem with rfl | hmem'
        · exact Or.inr ⟨n % 10, Nat.mod_lt _ (by omega), rfl⟩
        · exact Or.inl hmem'
      · exact Or.inr hd

theorem repr_no_paren (n : Nat) : ∀ c ∈ (Nat.repr n).data, c ≠ ')' := by
  intro c hc
  have : c ∈ Nat.toDigits 10 n := by
    simpa [Nat.repr, List.asString] using hc
  rcases toDigitsCore_all_digits (n + 1) n [] c this with h | ⟨d, hd, rfl⟩
  · simp at h
  · exact digitChar_ne_of_lt_ten hd (by decide)

theorem repr_length_pos (n : Nat) : 0 < (Nat.repr n).length := by
  have : ∀ fuel n (ds : List Char),
      ds.length < (Nat.toDigitsCore 10 (fuel + 1) n ds).length := by
    intro fuel
    induction fuel with
    | zero => intro n ds; rw [Nat.toDigitsCore]; split <;> simp [Nat.toDigitsCore]
    | succ fuel ih =>
      intro n ds
      rw [Nat.toDigitsCore]
      split
      · simp
      · calc ds.length < (Nat.digitChar (n % 10) :: ds).length := by simp
          _ < _ := ih (n / 10) _
  have h := this n n []
  simpa [Nat.repr, String.length, Nat.toDigits, List.asString] using h

/-- Two lists that agree after a sentinel element not occurring in either
prefix are equal prefix-by-prefix. -/
theorem append_sentinel_inj {α : Type} (x : α) :
    ∀ (s₁ s₂ t₁ t₂ : List α), (∀ c ∈ s₁, c ≠ x) → (∀ c ∈ s₂, c ≠ x) →
      s₁ ++ x :: t₁ = s₂ ++ x :: t₂ → s₁ = s₂ ∧ t₁ = t₂ := by
  intro s₁
  induction s₁ with
  | nil =>
    intro s₂ t₁ t₂ _ h₂ h
    cases s₂ with
    | nil => simpa using h
    | cons b bs =>
      simp only [List.nil_append, List.cons_append, List.cons.injEq] at h
      exact absurd h.1.symm (h₂ b (by simp))
  | cons a as ih =>
    intro s₂ t₁ t₂ h₁ h₂ h
    cases s₂ with
    | nil =>
      simp only [List.nil_append, List.cons_append, List.cons.injEq] at h
      exact absurd h.1 (h₁ a (by simp))
    | cons b bs =>
      simp only [List.cons_append, List.cons.injEq] at h
      obtain ⟨rfl, h⟩ := h
      obtain ⟨rfl, rfl⟩ := ih bs t₁ t₂ (fun c hc => h₁ c (by simp [hc]))
        (fun c hc => h₂ c (by simp [hc])) h
      exact ⟨rfl, rfl⟩

theorem splitext_concat (p : String) :
    (splitext p).1 ++ (splitext p).2 = p := by
  unfold splitext
  cases h : splitextIdx p.data with
  | none => simp
  | some d =>
    apply String.ext
    show ((p.data.take d).asString ++ (p.data.drop d).asString).data = p.data
    simp [List.asString, String.data_append]

theorem suffixPath_ne_self (filepath : String) (n : Nat) (is_dir : Bool) :
    suffixPath filepath n is_dir ≠ filepath := by
  have hlen : 0 < (Nat.repr n).length := repr_length_pos n
  unfold suffixPath
  intro h
  have hc := splitext_concat filepath
  split at h
  · have := congrArg String.length h
    simp only [String.length_append] at this
    have h1 : ("(" : String).length = 1 := rfl
    have h2 : (")" : String).length = 1 := rfl
    omega
  · have := congrArg String.length h
    have hc' := congrArg String.length hc
    simp only [String.length_append] at this hc'
    have h1 : ("(" : String).length = 1 := rfl
    have h2 : (")" : String).length = 1 := rfl
    omega

theorem suffixPath_inj (filepath : String) (is_dir : Bool) :
    ∀ n m : Nat, suffixPath filepath n is_dir = suffixPath filepath m is_dir →
      n = m := by
  intro n m h
  unfold suffixPath at h
  apply Nat_repr_injective
  apply String.ext
  split at h
  · -- directory: filepath ++ "(" ++ repr n ++ ")" = filepath ++ "(" ++ repr m ++ ")"
    have hd := congrArg String.data h
    simp only [String.data_append, List.append_assoc] at hd
    have hd' := List.append_cancel_left (List.append_cancel_left hd)
    exact (List.append_cancel_right hd')
  · -- file: root ++ "(" ++ repr n ++ ")" ++ ext = root ++ "(" ++ repr m ++ ")" ++ ext
    have hd := congrArg String.data h
    simp only [String.data_append, List.append_assoc] at hd
    have hd' := List.append_cancel_left (List.append_cancel_left hd)
    have hsent := append_sentinel_inj ')' (Nat.repr n).data (Nat.repr m).data
      (splitext filepath).2.data (splitext filepath).2.data
      (repr_no_paren n) (repr_no_paren m) (by simpa using hd')
    exact hsent.1

theorem lastIdxOf_get (c : Char) :
    ∀ (l : List Char) (d : Nat), lastIdxOf c l = some d → l.get? d = some c := by
  intro l
  induction l with
  | nil => intro d h; simp [lastIdxOf] at h
  | cons a rest ih =>
    intro d h
    rw [lastIdxOf] at h
    cases hrec : lastIdxOf c rest with
    | some k =>
      rw [hrec] at h
      injection h with h0
      cases h0
      simpa using ih k hrec
    | none =>
      rw [hrec] at h
      by_cases hac : a = c
      · rw [if_pos hac] at h
        injection h with h0
        cases h0
        simp [hac]
      · rw [if_neg hac] at h
        cases h

/-- The extension returned by `splitext`, when non-empty, starts with a
dot. -/
theorem splitext_snd_head (p : String) (h : (splitext p).2 ≠ "") :
    ∃ rest, (splitext p).2.data = '.' :: rest := by
  unfold splitext at h ⊢
  cases hidx : splitextIdx p.data with
  | none => simp [hidx] at h
  | some d =>
    simp only [hidx]
    have hget : p.data.get? d = some '.' := by
      unfold splitextIdx at hidx
      cases hlast : lastIdxOf '.' p.data with
      | none => rw [hlast] at hidx; simp at hidx
      | some d' =>
        rw [hlast] at hidx
        simp only at hidx
        split at hidx
        · simp only [Option.some.injEq] at hidx
          exact hidx ▸ lastIdxOf_get '.' p.data d' hlast
        · simp at hidx
    obtain ⟨hd, hx⟩ := List.get?_eq_some.mp hget
    refine ⟨(p.data.drop (d + 1)), ?_⟩
    simp only [List.asString]
    rw [List.drop_eq_getElem_cons hd]
    simp only [List.cons.injEq]
    exact ⟨by simpa [List.get_eq_getElem] using hx, trivial⟩

theorem outAt_pairwise (fp : String) :
    ∀ (i j : Nat) (d d' : Bool), i ≠ j → outAt fp i d ≠ outAt fp j d' := by
  have hcross : ∀ (i j : Nat), i ≠ j →
      suffixPath fp i false ≠ suffixPath fp j true := by
    intro i j hij h
    unfold suffixPath at h
    simp only [Bool.false_eq_true, if_false, if_true] at h
    by_cases he : (splitext fp).2 = ""
    · -- no extension: both shapes are fp ++ "(" ++ repr _ ++ ")"
      have h1 : (splitext fp).1 = fp := by
        have := splitext_concat fp
        rwa [he, String.append_empty] at this
      rw [h1, he, String.append_empty] at h
      have hd := congrArg String.data h
      simp only [String.data_append, List.append_assoc] at hd
      have hd' := List.append_cancel_left (List.append_cancel_left hd)
      have hrepr : Nat.repr i = Nat.repr j := by
        apply String.ext
        exact List.append_cancel_right hd'
      exact hij (Nat_repr_injective hrepr)
    · obtain ⟨rest, hrest⟩ := splitext_snd_head fp he
      have hfp : fp.data = (splitext fp).1.data ++ (splitext fp).2.data := by
        have := congrArg String.data (splitext_concat fp)
        simpa [String.data_append] using this.symm
      have hd := congrArg String.data h
      simp only [String.data_append, List.append_assoc, hfp, hrest] at hd
      have hd' := List.append_cancel_left hd
      -- left side starts with '(' while the right side starts with '.'
      have h0 := congrArg (fun l => List.get? l 0) hd'
      simp only [String.data_append] at h0
      simp [List.get?_append] at h0
  intro i j d d' hij h
  unfold outAt at h
  rcases Nat.eq_zero_or_pos i with hi | hi <;>
    rcases Nat.eq_zero_or_pos j with hj | hj
  · omega
  · subst hi
    rw [if_pos rfl, if_neg (by omega)] at h
    exact suffixPath_ne_self fp j d' h.symm
  · subst hj
    rw [if_neg (by omega), if_pos rfl] at h
    exact suffixPath_ne_self fp i d h
  · rw [if_neg (by omega), if_neg (by omega)] at h
    cases d <;> cases d'
    · exact hij (suffixPath_inj fp false i j h)
    · exact hcross i j hij h
    · exact hcross j i (Ne.symm hij) h.symm
    · exact hij (suffixPath_inj fp true i j h)

theorem resolve_frame (pc : PCount) (parent child : String) (d : Bool)
    (q : String) (hq : q ≠ pathJoin parent child) :
    (resolve_naming_collision pc parent child d).2 q = pc q := by
  unfold resolve_naming_collision
  simp only []
  split <;> simp [hq]

theorem resolve_single_step (pc : PCount) (parent child : String)
    (d : Bool) (k : Nat) (h : pc (pathJoin parent child) = tableEntry k) :
    (resolve_naming_collision pc parent child d).1
        = outAt (pathJoin parent child) k d
    ∧ (resolve_naming_collision pc parent child d).2 (pathJoin parent child)
        = some k := by
  cases k with
  | zero =>
    simp only [tableEntry] at h
    unfold resolve_naming_collision
    simp only [h]
    exact ⟨by simp [outAt], by simp⟩
  | succ k =>
    simp only [tableEntry] at h
    unfold resolve_naming_collision
    simp only [h]
    exact ⟨by simp [outAt], by simp⟩

theorem runResolve_cons (pc : PCount) (c : RCCall) (rest : List RCCall) :
    runResolve pc (c :: rest)
      = ((resolve_naming_collision pc c.parent c.child c.is_dir).1 ::
          (runResolve (resolve_naming_collision pc c.parent c.child c.is_dir).2
            rest).1,
         (runResolve (resolve_naming_collision pc c.parent c.child c.is_dir).2
            rest).2) := rfl

theorem outsFor_cons_pos (fp : String) (c : RCCall) (rest : List RCCall)
    (o : String) (outs : List String) (hc : candidate c = fp) :
    outsFor fp (c :: rest) (o :: outs) = o :: outsFor fp rest outs := by
  simp [outsFor, List.filter_cons, hc]

theorem outsFor_cons_neg (fp : String) (c : RCCall) (rest : List RCCall)
    (o : String) (outs : List String) (hc : ¬ candidate c = fp) :
    outsFor fp (c :: rest) (o :: outs) = outsFor fp rest outs := by
  simp [outsFor, List.filter_cons, hc]

theorem runResolve_occurrences (fp : String) :
    ∀ (calls : List RCCall) (pc : PCount) (k : Nat),
      pc fp = tableEntry k →
      outsFor fp calls (runResolve pc calls).1 = expectedOuts fp k calls
      ∧ (runResolve pc calls).2 fp
          = tableEntry (k + (calls.filter (fun c => candidate c = fp)).length) := by
  intro calls
  induction calls with
  | nil => intro pc k h; simpa [runResolve, outsFor, expectedOuts] using h
  | cons c rest ih =>
    intro pc k h
    by_cases hc : candidate c = fp
    · have hstep := resolve_single_step pc c.parent c.child c.is_dir k
        (by rwa [show pathJoin c.parent c.child = fp from hc])
      rw [show pathJoin c.parent c.child = fp from hc] at hstep
      have hnext : (resolve_naming_collision pc c.parent c.child c.is_dir).2 fp
          = tableEntry (k + 1) := by
        rw [hstep.2]; rfl
      have ihr := ih (resolve_naming_collision pc c.parent c.child c.is_dir).2
        (k + 1) hnext
      constructor
      · rw [runResolve_cons, outsFor_cons_pos fp c rest _ _ hc, hstep.1,
          expectedOuts, if_pos hc, ihr.1]
      · rw [runResolve_cons]
        simp only
        rw [ihr.2]
        have hlen : ((c :: rest).filter (fun x => candidate x = fp)).length
            = (rest.filter (fun x => candidate x = fp)).length + 1 := by
          simp [List.filter_cons, hc]
        rw [hlen]
        congr 1
        omega
    · have hfr : (resolve_naming_collision pc c.parent c.child c.is_dir).2 fp
          = pc fp := by
        apply resolve_frame
        intro hq
        exact hc (by rw [candidate, ← hq])
      have ihr := ih (resolve_naming_collision pc c.parent c.child c.is_dir).2 k
        (by rw [hfr]; exact h)
      constructor
      · rw [runResolve_cons, outsFor_cons_neg fp c rest _ _ hc,
          expectedOuts, if_neg hc, ihr.1]
      · rw [runResolve_cons]
        simp only
        rw [ihr.2]
        have hlen : ((c :: rest).filter (fun x => candidate x = fp)).length
            = (rest.filter (fun x => candidate x = fp)).length := by
          simp [List.filter_cons, hc]
        rw [hlen]

theorem expectedOuts_mem (fp : String) :
    ∀ (calls : List RCCall) (k : Nat) (x : String),
      x ∈ expectedOuts fp k calls → ∃ m d, k ≤ m ∧ x = outAt fp m d := by
  intro calls
  induction calls with
  | nil => intro k x hx; simp [expectedOuts] at hx
  | cons c rest ih =>
    intro k x hx
    rw [expectedOuts] at hx
    split at hx
    · rcases List.mem_cons.mp hx with rfl | hx'
      · exact ⟨k, c.is_dir, le_refl k, rfl⟩
      · obtain ⟨m, d, hm, hd⟩ := ih (k + 1) x hx'
        exact ⟨m, d, by omega, hd⟩
    · exact ih k x hx

theorem expectedOuts_pairwise (fp : String) :
    ∀ (calls : List RCCall) (k : Nat),
      List.Pairwise (fun a b => a ≠ b) (expectedOuts fp k calls) := by
  intro calls
  induction calls with
  | nil => intro k; simp [expectedOuts]
  | cons c rest ih =>
    intro k
    rw [expectedOuts]
    split
    · refine List.Pairwise.cons ?_ (ih (k + 1))
      intro x hx
      obtain ⟨m, d, hm, rfl⟩ := expectedOuts_mem fp rest (k + 1) x hx
      exact outAt_pairwise fp k m c.is_dir d (by omega)
    · exact ih k

theorem countActive_cons (j : Job) (l : List Job) :
    countActive (j :: l) = cA j + countActive l := by
  by_cases h : j.status = .active <;>
    simp [countActive, cA, List.filter_cons, h, Nat.add_comm]

theorem countActive_append (l₁ l₂ : List Job) :
    countActive (l₁ ++ l₂) = countActive l₁ + countActive l₂ := by
  simp [countActive, List.filter_append]

theorem countActive_set (l : List Job) :
    ∀ (i : Nat) (j' : Job) (h : i < l.length),
      countActive (l.set i j') + cA (l[i]) = countActive l + cA j' := by
  induction l with
  | nil => intro i j' h; simp at h
  | cons a rest ih =>
    intro i j' h
    cases i with
    | zero =>
      simp only [List.set_cons_zero, List.getElem_cons_zero]
      rw [countActive_cons, countActive_cons]
      omega
    | succ i =>
      simp only [List.set_cons_succ, List.getElem_cons_succ]
      rw [countActive_cons, countActive_cons]
      have := ih i j' (by simpa using h)
      omega

theorem countActive_pause_le (queue_id : Nat) (l : List Job) :
    countActive (api_queue_pause queue_id l) ≤ countActive l := by
  induction l with
  | nil => simp [api_queue_pause]
  | cons j rest ih =>
    rw [api_queue_pause]
    split
    · rw [countActive_cons, countActive_cons]
      simp only [cA]
      split <;> split <;> simp_all
    · rw [countActive_cons, countActive_cons]
      omega

theorem countActive_resume_eq (queue_id : Nat) (l : List Job) :
    countActive (api_queue_resume queue_id l) = countActive l := by
  induction l with
  | nil => simp [api_queue_resume]
  | cons j rest ih =>
    rw [api_queue_resume]
    split
    · rw [countActive_cons, countActive_cons]
      rename_i hcond
      simp only [cA]
      have : j.status = .paused := hcond.2
      rw [this]
      simp
    · rw [countActive_cons, countActive_cons, ih]

theorem countActive_delete_le (queue_id : Nat) (l : List Job) :
    countActive (api_queue_delete queue_id l) ≤ countActive l := by
  induction l with
  | nil => simp [api_queue_delete]
  | cons j rest ih =>
    rw [api_queue_delete]
    split
    · rw [countActive_cons]; omega
    · rw [countActive_cons, countActive_cons]; omega

theorem countActive_clear_le (l : List Job) :
    countActive (clear_finished l) ≤ countActive l := by
  induction l with
  | nil => simp [clear_finished]
  | cons j rest ih =>
    rw [clear_finished]
    split
    · rw [countActive_cons]; omega
    · rw [countActive_cons, countActive_cons]; omega

theorem countActive_markFirstQueued (now : Nat) :
    ∀ (l l' : List Job) (idx : Nat),
      markFirstQueued now l = some (l', idx) →
      countActive l' = countActive l + 1 := by
  intro l
  induction l with
  | nil => intro l' idx h; simp [markFirstQueued] at h
  | cons j rest ih =>
    intro l' idx h
    rw [markFirstQueued] at h
    split at h
    · rename_i hq
      injection h with h
      injection h with h1 h2
      subst h1
      rw [countActive_cons, countActive_cons]
      have hm : cA (markActive j now) = 1 := by simp [cA, markActive]
      have h0 : cA j = 0 := by simp [cA, hq]
      omega
    · cases hrec : markFirstQueued now rest with
      | none => rw [hrec] at h; simp at h
      | some p =>
        rw [hrec] at h
        injection h with h
        injection h with h1 h2
        subst h1
        rw [countActive_cons, countActive_cons, ih p.1 p.2 hrec]
        omega

theorem countActive_drainLock_le (maxConcurrent now : Nat) (l : List Job)
    (h : countActive l ≤ maxConcurrent) :
    countActive (drainLock maxConcurrent now l).1 ≤ maxConcurrent := by
  unfold drainLock
  split
  · simpa using h
  · rename_i hlt
    cases hm : markFirstQueued now l with
    | none => simpa using h
    | some p =>
      simp only
      rw [countActive_markFirstQueued now l p.1 p.2 hm]
      omega

theorem qstep_preserves_cap (maxConcurrent : Nat) (s s' : QState)
    (hstep : QStep maxConcurrent s s')
    (h : countActive s.jobs ≤ maxConcurrent) :
    countActive s'.jobs ≤ maxConcurrent := by
  cases hstep with
  | enqueue u p url folder =>
    simp only
    rw [countActive_append, countActive_cons]
    have hc : cA (mkJob (s.counter + 1) u p url folder) = 0 := by
      simp [cA, mkJob]
    have h0 : countActive ([] : List Job) = 0 := by simp [countActive]
    omega
  | enqueueBot j hq =>
    simp only
    rw [countActive_append, countActive_cons]
    have hc : cA j = 0 := by simp [cA, hq]
    have h0 : countActive ([] : List Job) = 0 := by simp [countActive]
    omega
  | drain now => exact countActive_drainLock_le maxConcurrent now s.jobs h
  | pause qid => exact le_trans (countActive_pause_le qid s.jobs) h
  | resume qid => exact le_of_eq_of_le (countActive_resume_eq qid s.jobs) h
  | delete qid => exact le_trans (countActive_delete_le qid s.jobs) h
  | clear => exact le_trans (countActive_clear_le s.jobs) h
  | runnerWrite i j' hi hid hst =>
    simp only
    have hset := countActive_set s.jobs i j' hi
    have hcle : cA j' ≤ cA (s.jobs[i]) := by
      simp only [cA]
      rcases hst with hst | hst | hst
      · rw [hst]
      · rw [hst]; simp
      · rw [hst]; simp
    omega

/-! ### Specification of the admission step (for C3) -/

theorem markFirstQueued_spec (now : Nat) :
    ∀ (l l' : List Job) (idx : Nat),
      markFirstQueued now l = some (l', idx) →
      ∃ h : idx < l.length,
        (l[idx]).status = .queued
        ∧ (∀ k, k < idx → ∀ (hk : k < l.length), (l[k]).status ≠ .queued)
        ∧ l' = l.set idx (markActive (l[idx]) now) := by
  intro l
  induction l with
  | nil => intro l' idx h; simp [markFirstQueued] at h
  | cons j rest ih =>
    intro l' idx h
    rw [markFirstQueued] at h
    split at h
    · rename_i hq
      injection h with h
      injection h with h1 h2
      subst h1
      cases h2
      exact ⟨by simp, by simpa using hq, by omega, by simp⟩
    · rename_i hnq
      cases hrec : markFirstQueued now rest with
      | none => rw [hrec] at h; simp at h
      | some p =>
        rw [hrec] at h
        injection h with h
        injection h with h1 h2
        subst h1
        cases h2
        obtain ⟨hlt, hq, hmin, hset⟩ := ih p.1 p.2 hrec
        refine ⟨by simpa using Nat.succ_lt_succ hlt, ?_, ?_, ?_⟩
        · simpa using hq
        · intro k hk hklen
          cases k with
          | zero => simpa using hnq
          | succ k =>
            have := hmin k (by omega) (by simpa using hklen)
            simpa using this
        · simp only [List.set_cons_succ, List.getElem_cons_succ]
          rw [← hset]

theorem drainLock_admit (maxConcurrent now : Nat) (l l' : List Job)
    (idx : Nat) (h : drainLock maxConcurrent now l = (l', some idx)) :
    countActive l < maxConcurrent
    ∧ markFirstQueued now l = some (l', idx) := by
  unfold drainLock at h
  split at h
  · simp at h
  · rename_i hlt
    cases hm : markFirstQueued now l with
    | none => rw [hm] at h; simp at h
    | some p =>
      obtain ⟨pa, pb⟩ := p
      rw [hm] at h
      injection h with h1 h2
      injection h2 with h2
      subst h1
      subst h2
      exact ⟨by omega, rfl⟩

/-! ### Order preservation of the queue (for C3): every atomic step
either appends new jobs at the tail or preserves the relative order of
the surviving jobs. -/

theorem map_id_pause (queue_id : Nat) (l : List Job) :
    (api_queue_pause queue_id l).map Job.id = l.map Job.id := by
  induction l with
  | nil => rfl
  | cons j rest ih =>
    rw [api_queue_pause]
    split <;> simp [ih]

theorem map_id_resume (queue_id : Nat) (l : List Job) :
    (api_queue_resume queue_id l).map Job.id = l.map Job.id := by
  induction l with
  | nil => rfl
  | cons j rest ih =>
    rw [api_queue_resume]
    split <;> simp [ih]

theorem map_id_delete (queue_id : Nat) (l : List Job) :
    List.Sublist ((api_queue_delete queue_id l).map Job.id) (l.map Job.id) := by
  induction l with
  | nil => simp [api_queue_delete]
  | cons j rest ih =>
    rw [api_queue_delete]
    split
    · exact List.sublist_cons_of_sublist _ (List.Sublist.refl _)
    · simp only [List.map_cons]
      exact List.Sublist.cons₂ _ ih

theorem map_id_clear (l : List Job) :
    List.Sublist ((clear_finished l).map Job.id) (l.map Job.id) := by
  induction l with
  | nil => simp [clear_finished]
  | cons j rest ih =>
    rw [clear_finished]
    split
    · exact List.sublist_cons_of_sublist _ ih
    · simp only [List.map_cons]
      exact List.Sublist.cons₂ _ ih

theorem map_id_set (l : List Job) :
    ∀ (i : Nat) (j' : Job), (∀ (h : i < l.length), j'.id = (l[i]).id) →
      (l.set i j').map Job.id = l.map Job.id := by
  induction l with
  | nil => intro i j' _; simp
  | cons a rest ih =>
    intro i j' hid
    cases i with
    | zero =>
      simp only [List.set_cons_zero, List.map_cons]
      rw [hid (by simp)]
      simp
    | succ i =>
      simp only [List.set_cons_succ, List.map_cons]
      rw [ih i j' (fun h => by simpa using hid (by simpa using Nat.succ_lt_succ h))]

theorem qstep_order (maxConcurrent : Nat) (s s' : QState)
    (hstep : QStep maxConcurrent s s') :
    ∃ t, List.Sublist (s'.jobs.map Job.id) (s.jobs.map Job.id ++ t) := by
  cases hstep with
  | enqueue u p url folder =>
    exact ⟨[(mkJob (s.counter + 1) u p url folder).id], by simp⟩
  | enqueueBot j hq => exact ⟨[j.id], by simp⟩
  | drain now =>
    refine ⟨[], ?_⟩
    rw [List.append_nil]
    show List.Sublist ((drainLock maxConcurrent now s.jobs).1.map Job.id) _
    rcases hd : drainLock maxConcurrent now s.jobs with ⟨l', r⟩
    cases r with
    | none =>
      have : l' = s.jobs := by
        unfold drainLock at hd
        split at hd
        · injection hd with h1 _; exact h1.symm
        · cases hm : markFirstQueued now s.jobs with
          | none => rw [hm] at hd; injection hd with h1 _; exact h1.symm
          | some p => rw [hm] at hd; injection hd with _ h2; cases h2
      rw [this]
    | some idx =>
      obtain ⟨hlt, hmfq⟩ := drainLock_admit maxConcurrent now s.jobs l' idx hd
      obtain ⟨h, _, _, hset⟩ := markFirstQueued_spec now s.jobs l' idx hmfq
      rw [hset, map_id_set s.jobs idx _ (fun _ => rfl)]
  | pause qid =>
    exact ⟨[], by rw [List.append_nil, map_id_pause]⟩
  | resume qid =>
    exact ⟨[], by rw [List.append_nil, map_id_resume]⟩
  | delete qid =>
    exact ⟨[], by rw [List.append_nil]; exact map_id_delete qid s.jobs⟩
  | clear =>
    exact ⟨[], by rw [List.append_nil]; exact map_id_clear s.jobs⟩
  | runnerWrite i j' hi hid hst =>
    exact ⟨[], by rw [List.append_nil, map_id_set s.jobs i j' (fun _ => hid)]⟩

theorem pqLoop_admit_lt (maxConcurrent : Nat) :
    ∀ (fuel pass : Nat) (jobs : List Job) (log : List PassEvent),
      (∀ e ∈ log, ∀ i, e.admitted = some i → e.activeCount < maxConcurrent) →
      ∀ e ∈ (pqLoop maxConcurrent fuel pass jobs log).2,
        ∀ i, e.admitted = some i → e.activeCount < maxConcurrent := by
  intro fuel
  induction fuel with
  | zero => intro pass jobs log hlog; exact hlog
  | succ fuel ih =>
    intro pass jobs log hlog e
    rw [pqLoop]
    cases hm : markFirstQueued pass jobs with
    | none =>
      simp only
      split
      · intro he
        rcases List.mem_append.mp he with he | he
        · exact hlog e he
        · intro i hi
          simp at he
          subst he
          simp at hi
      · refine ih (pass + 1) jobs _ ?_ e
        intro e' he'
        rcases List.mem_append.mp he' with he' | he'
        · exact hlog e' he'
        · intro i hi
          simp at he'
          subst he'
          simp at hi
    | some p =>
      simp only
      split
      · split
        · intro he
          rcases List.mem_append.mp he with he | he
          · exact hlog e he
          · intro i hi
            simp at he
            subst he
            simp at hi
        · refine ih (pass + 1) jobs _ ?_ e
          intro e' he'
          rcases List.mem_append.mp he' with he' | he'
          · exact hlog e' he'
          · intro i hi
            simp at he'
            subst he'
            simp at hi
      · rename_i hac
        refine ih (pass + 1) p.1 _ ?_ e
        intro e' he'
        rcases List.mem_append.mp he' with he' | he'
        · exact hlog e' he'
        · intro i hi
          simp at he'
          subst he'
          simp only at hi ⊢
          omega

/-! ## Claims -/

/-- C1: for every configured concurrency cap `N ≥ 1`, in every state of
the queue reachable under any interleaving of enqueue, drain (the
count-and-mark admission step, atomic because it runs under
`queue_lock`), pause, resume, delete, clear and runner writes, the
number of jobs with status `active` never exceeds `N`. -/
theorem claim_C1_concurrency_cap (maxConcurrent : Nat) (s : QState)
    (hN : 1 ≤ maxConcurrent) (hreach : ReachableQ maxConcurrent s) :
    countActive s.jobs ≤ maxConcurrent := by
  induction hreach with
  | refl => simp [initQ, countActive]
  | tail _ hstep ih => exact qstep_preserves_cap maxConcurrent _ _ hstep ih

theorem claim_C1_concurrency_cap_witness :
    1 ≤ 1 ∧ countActive qWit2.jobs = 1 ∧ countActive qWit2.jobs ≤ 1 :=
  ⟨le_refl 1, by decide,
    claim_C1_concurrency_cap 1 qWit2 (le_refl 1)
      (Relation.ReflTransGen.tail
        (Relation.ReflTransGen.single
          (QStep.enqueue initQ "alice" "instagram" none none))
        (QStep.drain qWit1 7))⟩

/-- C2 (code bug): the stall guard never fires.  The runner's inactivity
check compares `time.time()` against a `last_activity` that was reset in
the same loop iteration, and `readline` blocks between lines, so a
subprocess that emits one line and then stays silent forever leaves the
job `active` with no timeout transition, no termination and no
notification — and even an output gap far exceeding the 10-minute
window, followed by a clean exit, yields `completed` rather than the
timeout failure the claim requires. -/
theorem claim_C2_stall_guard_never_fires :
    (run_download (markActive (mkJob 1 "alice" "instagram" none none) 0)
        none [⟨"line one", 0, 0, false⟩] ProcTail.hang 999).blocked = true
    ∧ (run_download (markActive (mkJob 1 "alice" "instagram" none none) 0)
        none [⟨"line one", 0, 0, false⟩] ProcTail.hang 999).job.status
        = JStatus.active
    ∧ (run_download (markActive (mkJob 1 "alice" "instagram" none none) 0)
        none [⟨"line one", 0, 0, false⟩] ProcTail.hang 999).terminated = false
    ∧ (run_download (markActive (mkJob 1 "alice" "instagram" none none) 0)
        none [⟨"line one", 0, 0, false⟩] ProcTail.hang 999).notifs = []
    ∧ (run_download (markActive (mkJob 1 "alice" "instagram" none none) 0)
        none [⟨"line one", 0, 0, false⟩, ⟨"line two", 100000, 100000, false⟩]
        (ProcTail.eof 0) 100001).job.status = JStatus.completed
    ∧ (run_download (markActive (mkJob 1 "alice" "instagram" none none) 0)
        none [⟨"line one", 0, 0, false⟩, ⟨"line two", 100000, 100000, false⟩]
        (ProcTail.eof 0) 100001).job.message
        ≠ "Timeout after 10 minutes of inactivity" := by
  decide

/-- C3: whenever the admission step admits a job, it is the first
`queued` job in list order — and since every queue mutation either
appends at the tail or preserves the relative order of surviving jobs
(second conjunct), list order is insertion order — and it is marked
`active` with `started_at` stamped before the runner is dispatched. -/
theorem claim_C3_admission_order :
    (∀ (maxConcurrent now : Nat) (l l' : List Job) (idx : Nat),
      drainLock maxConcurrent now l = (l', some idx) →
      ∃ h : idx < l.length,
        (l[idx]).status = .queued
        ∧ (∀ k, k < idx → ∀ (hk : k < l.length), (l[k]).status ≠ .queued)
        ∧ l' = l.set idx (markActive (l[idx]) now)
        ∧ (markActive (l[idx]) now).status = .active
        ∧ (markActive (l[idx]) now).started_at = some now)
    ∧ (∀ (maxConcurrent : Nat) (s s' : QState), QStep maxConcurrent s s' →
        ∃ t, List.Sublist (s'.jobs.map Job.id) (s.jobs.map Job.id ++ t)) := by
  constructor
  · intro maxConcurrent now l l' idx h
    obtain ⟨hlt, hmfq⟩ := drainLock_admit maxConcurrent now l l' idx h
    obtain ⟨hb, hq, hmin, hset⟩ := markFirstQueued_spec now l l' idx hmfq
    exact ⟨hb, hq, fun k hk hkl => hmin k hk hkl, hset, rfl, rfl⟩
  · exact qstep_order

theorem claim_C3_admission_order_witness :
    (∃ h : 0 < ([mkJob 1 "a" "x" none none] : List Job).length,
      (([mkJob 1 "a" "x" none none] : List Job)[0]).status = .queued
      ∧ (∀ k, k < 0 →
          ∀ (hk : k < ([mkJob 1 "a" "x" none none] : List Job).length),
          (([mkJob 1 "a" "x" none none] : List Job)[k]).status ≠ .queued)
      ∧ [markActive (mkJob 1 "a" "x" none none) 5]
          = ([mkJob 1 "a" "x" none none] : List Job).set 0
              (markActive (([mkJob 1 "a" "x" none none] : List Job)[0]) 5)
      ∧ (markActive (([mkJob 1 "a" "x" none none] : List Job)[0]) 5).status
          = .active
      ∧ (markActive (([mkJob 1 "a" "x" none none] : List Job)[0]) 5).started_at
          = some 5)
    ∧ (∃ t, List.Sublist
        ((⟨clear_finished initQ.jobs, initQ.counter⟩ : QState).jobs.map Job.id)
        (initQ.jobs.map Job.id ++ t)) :=
  ⟨claim_C3_admission_order.1 2 5 [mkJob 1 "a" "x" none none]
      [markActive (mkJob 1 "a" "x" none none) 5] 0 (by decide),
   claim_C3_admission_order.2 1 initQ ⟨clear_finished initQ.jobs, initQ.counter⟩
      (QStep.clear initQ)⟩

theorem runLoop_pausedExit : ∀ (evs : List LineEvent) (st st' : RunSt),
    runLoop st evs = .pausedExit st' →
    st'.job.status = .paused ∧ st'.terminated = true
    ∧ st'.job.message = "Download paused" := by
  intro evs
  induction evs with
  | nil => intro st st' h; simp [runLoop] at h
  | cons e rest ih =>
    intro st st' h
    rw [runLoop] at h
    split at h
    · rename_i hp
      injection h with h
      subst h
      exact ⟨by simpa [pausedExitSt] using hp, rfl, rfl⟩
    · split at h
      · simp at h
      · exact ih _ _ h

/-- C4 (counterexample): a run whose status is flipped to `paused`
mid-read ends with status `paused` — a non-terminal state — yet the
`finally` block still sends a notification on this exit path, because it
always runs and its branch test is only `status == 'completed'`
(lines 427-453). -/
theorem claim_C4_pause_notification_counterexample :
    (run_download (markActive (mkJob 1 "alice" "instagram" none none) 0)
        none [⟨"some line", 0, 0, false⟩, ⟨"", 5, 5, true⟩]
        ProcTail.hang 100).job.status = JStatus.paused
    ∧ (run_download (markActive (mkJob 1 "alice" "instagram" none none) 0)
        none [⟨"some line", 0, 0, false⟩, ⟨"", 5, 5, true⟩]
        ProcTail.hang 100).notifs.length = 1 := by
  decide

/-- C4 (amended): when the job is flipped to `paused` while the Runner
reads output, the Runner terminates the subprocess and returns without
assigning a terminal status — but the `finally` block still stamps
`completed_at`, clears the handle, and sends its notification (the
failure-flavoured variant, since status ≠ completed).  In general every
runner execution that is not blocked in `readline` sends exactly one
notification, on every exit path including pause; a blocked execution
sends none. -/
theorem claim_C4_pause_exit_amended :
    (∀ (j0 : Job) (evs : List LineEvent) (tail : ProcTail) (tEnd : Nat)
        (st' : RunSt),
      runLoop (initRunSt j0) evs = .pausedExit st' →
      (run_download j0 none evs tail tEnd).job.status = .paused
      ∧ (run_download j0 none evs tail tEnd).terminated = true
      ∧ (run_download j0 none evs tail tEnd).job.completed_at = some tEnd
      ∧ (run_download j0 none evs tail tEnd).job.hasProcess = false
      ∧ (run_download j0 none evs tail tEnd).notifs.length = 1
      ∧ (run_download j0 none evs tail tEnd).job.message = "Download paused")
    ∧ (∀ (j0 : Job) (spawnError : Option String) (evs : List LineEvent)
        (tail : ProcTail) (tEnd : Nat),
        ((run_download j0 spawnError evs tail tEnd).blocked = false →
          (run_download j0 spawnError evs tail tEnd).notifs.length = 1)
        ∧ ((run_download j0 spawnError evs tail tEnd).blocked = true →
          (run_download j0 spawnError evs tail tEnd).notifs = [])) := by
  constructor
  · intro j0 evs tail tEnd st' h
    obtain ⟨hs, ht, hm⟩ := runLoop_pausedExit evs (initRunSt j0) st' h
    simp only [run_download, h, finallyBlock]
    exact ⟨hs, ht, trivial, trivial, rfl, hm⟩
  · intro j0 spawnError evs tail tEnd
    cases spawnError with
    | some e => simp [run_download, finallyBlock]
    | none =>
      cases hl : runLoop (initRunSt j0) evs with
      | pausedExit st => simp [run_download, hl, finallyBlock]
      | timeoutExit st => simp [run_download, hl, finallyBlock]
      | consumed st =>
        cases tail with
        | hang => simp [run_download, hl]
        | eof rc =>
          by_cases hrc : rc = 0 <;> simp [run_download, hl, hrc, finallyBlock]

theorem claim_C4_pause_exit_amended_witness :
    (run_download jC4 none [⟨"", 0, 0, true⟩] ProcTail.hang 100).job.status
        = JStatus.paused
    ∧ (run_download jC4 none [⟨"", 0, 0, true⟩] ProcTail.hang 100).notifs.length
        = 1 :=
  ⟨(claim_C4_pause_exit_amended.1 jC4 [⟨"", 0, 0, true⟩] ProcTail.hang 100 stC4
      (by decide)).1,
   (claim_C4_pause_exit_amended.2 jC4 none [⟨"", 0, 0, true⟩] ProcTail.hang
      100).1 (by decide)⟩

/-- C5 (counterexample): `process_queue` reads
`max_concurrent_downloads` once, at line 252, before entering its
`while True` loop.  With the settings store returning 2 at pass 0 and 0
from pass 1 onwards, the already-running drain loop still admits a
second job at pass 1 with one job already active — an admission decision
that ignores the lowered value, contradicting the claim that the
setting is re-read on each pass. -/
theorem claim_C5_stale_cap_counterexample :
    ¬ (∀ e ∈ (process_queue (fun k => if k = 0 then 2 else 0) 10
          [mkJob 1 "a" "x" none none, mkJob 2 "b" "x" none none]).2,
        ∀ i, e.admitted = some i →
          e.activeCount < (fun k => if k = 0 then 2 else 0) e.pass) := by
  decide

theorem mem_set_of_getElem_ne {α : Type} :
    ∀ (l : List α) (i : Nat) (v j : α), j ∈ l →
      (∀ (h : i < l.length), l[i] ≠ j) → j ∈ l.set i v := by
  intro l
  induction l with
  | nil => intro i v j hj _; simp at hj
  | cons a rest ih =>
    intro i v j hj hne
    cases i with
    | zero =>
      rcases List.mem_cons.mp hj with rfl | hj'
      · exact absurd rfl (hne (by simp))
      · simp [hj']
    | succ i =>
      rcases List.mem_cons.mp hj with rfl | hj'
      · simp
      · simp only [List.set_cons_succ]
        exact List.mem_cons.mpr (Or.inr (ih i v j hj'
          (fun h => by simpa using hne (by simpa using Nat.succ_lt_succ h))))

theorem actives_survive_mark (now : Nat) (l l' : List Job) (idx : Nat)
    (hm : markFirstQueued now l = some (l', idx)) :
    ∀ j ∈ l, j.status = .active → j ∈ l' := by
  obtain ⟨hb, hq, _, hset⟩ := markFirstQueued_spec now l l' idx hm
  intro j hj hact
  rw [hset]
  refine mem_set_of_getElem_ne l idx _ j hj ?_
  intro h heq
  rw [heq] at hq
  rw [hact] at hq
  cases hq

theorem actives_survive_pqLoop (maxConcurrent : Nat) :
    ∀ (fuel pass : Nat) (jobs : List Job) (log : List PassEvent),
      ∀ j ∈ jobs, j.status = .active →
        j ∈ (pqLoop maxConcurrent fuel pass jobs log).1 := by
  intro fuel
  induction fuel with
  | zero => intro pass jobs log j hj _; exact hj
  | succ fuel ih =>
    intro pass jobs log j hj hact
    rw [pqLoop]
    cases hm : markFirstQueued pass jobs with
    | none =>
      simp only
      split
      · exact hj
      · exact ih (pass + 1) jobs _ j hj hact
    | some p =>
      simp only
      split
      · split
        · exact hj
        · exact ih (pass + 1) jobs _ j hj hact
      · exact ih (pass + 1) p.1 _ j
          (actives_survive_mark pass jobs p.1 p.2 (by rw [hm]) j hj hact) hact

/-- C5 (amended): the cap is read once per `process_queue` invocation,
at its start (line 252); an already-running drain loop keeps using that
value — its behaviour depends only on the value at pass 0, and every
admission it makes satisfies the cap it read at start — so a value
changed at runtime takes effect only for drain-loop invocations spawned
afterwards (each enqueue/resume spawns a fresh one).  Already-active
jobs are never preempted by the loop. -/
theorem claim_C5_cap_read_once_amended :
    (∀ (s s' : Nat → Nat) (fuel : Nat) (jobs : List Job), s 0 = s' 0 →
      process_queue s fuel jobs = process_queue s' fuel jobs)
    ∧ (∀ (s : Nat → Nat) (fuel : Nat) (jobs : List Job),
        ∀ e ∈ (process_queue s fuel jobs).2, ∀ i, e.admitted = some i →
          e.activeCount < s 0)
    ∧ (∀ (s : Nat → Nat) (fuel : Nat) (jobs : List Job),
        ∀ j ∈ jobs, j.status = .active → j ∈ (process_queue s fuel jobs).1) := by
  refine ⟨?_, ?_, ?_⟩
  · intro s s' fuel jobs h
    unfold process_queue
    rw [h]
  · intro s fuel jobs e he i hi
    exact pqLoop_admit_lt (s 0) fuel 0 jobs [] (by simp) e he i hi
  · intro s fuel jobs j hj hact
    exact actives_survive_pqLoop (s 0) fuel 0 jobs [] j hj hact

theorem claim_C5_cap_read_once_amended_witness :
    process_queue (fun _ => 2) 3 [mkJob 1 "a" "x" none none]
      = process_queue (fun k => if k = 0 then 2 else 5) 3
          [mkJob 1 "a" "x" none none]
    ∧ (∀ e ∈ (process_queue (fun _ => 2) 3 [mkJob 1 "a" "x" none none]).2,
        ∀ i, e.admitted = some i → e.activeCount < 2) :=
  ⟨claim_C5_cap_read_once_amended.1 (fun _ => 2)
      (fun k => if k = 0 then 2 else 5) 3 [mkJob 1 "a" "x" none none] rfl,
   claim_C5_cap_read_once_amended.2.1 (fun _ => 2) 3
      [mkJob 1 "a" "x" none none]⟩

/-! ### The `files_downloaded` write trace (for C9) -/

theorem parseLine_writes_inv (st : RunSt) (line : String)
    (h1 : List.Chain' (fun a b => a < b) st.filesWrites)
    (h2 : ∀ x ∈ st.filesWrites, x ≤ st.filesCount) :
    List.Chain' (fun a b => a < b) (parseLine st line).filesWrites
    ∧ ∀ x ∈ (parseLine st line).filesWrites,
        x ≤ (parseLine st line).filesCount := by
  unfold parseLine
  split
  · split
    · constructor
      · show List.Chain' _ (st.filesWrites ++ [st.filesCount + 1])
        rw [List.chain'_append]
        refine ⟨h1, List.chain'_singleton _, ?_⟩
        intro x hx y hy
        simp only [List.head?_cons, Option.mem_def, Option.some.injEq] at hy
        have hxm : x ∈ st.filesWrites := by
          obtain ⟨hne, hx'⟩ := List.mem_getLast?_eq_getLast hx
          rw [hx']
          exact List.getLast_mem hne
        have := h2 x hxm
        omega
      · show ∀ x ∈ st.filesWrites ++ [st.filesCount + 1],
            x ≤ st.filesCount + 1
        intro x hx
        rcases List.mem_append.mp hx with hx | hx
        · exact le_trans (h2 x hx) (Nat.le_succ _)
        · simp only [List.mem_singleton] at hx
          omega
    · split
      · exact ⟨h1, h2⟩
      · split
        · exact ⟨h1, h2⟩
        · split
          · exact ⟨h1, h2⟩
          · exact ⟨h1, h2⟩
  · exact ⟨h1, h2⟩

theorem pauseFlipSt_writes (st : RunSt) (e : LineEvent) :
    (pauseFlipSt st e).filesWrites = st.filesWrites
    ∧ (pauseFlipSt st e).filesCount = st.filesCount := by
  unfold pauseFlipSt
  split <;> exact ⟨rfl, rfl⟩

theorem runLoop_writes_inv : ∀ (evs : List LineEvent) (st : RunSt),
    List.Chain' (fun a b => a < b) st.filesWrites →
    (∀ x ∈ st.filesWrites, x ≤ st.filesCount) →
    List.Chain' (fun a b => a < b) (exitSt (runLoop st evs)).filesWrites := by
  intro evs
  induction evs with
  | nil => intro st h1 _; exact h1
  | cons e rest ih =>
    intro st h1 h2
    rw [runLoop]
    split
    · simp only [exitSt, pausedExitSt]
      rw [(pauseFlipSt_writes st e).1]
      exact h1
    · have hw := pauseFlipSt_writes st e
      have hpl := parseLine_writes_inv (pauseFlipSt st e) (pyStrip e.line)
        (by rw [hw.1]; exact h1) (by rw [hw.1, hw.2]; exact h2)
      split
      · exact hpl.1
      · exact ih _ hpl.1 hpl.2

theorem run_download_writes_chain (j0 : Job) (spawnError : Option String)
    (evs : List LineEvent) (tail : ProcTail) (tEnd : Nat) :
    List.Chain' (fun a b => a < b)
      ((run_download j0 spawnError evs tail tEnd).filesWrites) := by
  cases spawnError with
  | some e => simp [run_download, finallyBlock]
  | none =>
    have hbase := runLoop_writes_inv evs (initRunSt j0)
      (by simp [initRunSt]) (by simp [initRunSt])
    cases hl : runLoop (initRunSt j0) evs with
    | pausedExit st =>
      rw [hl] at hbase
      simpa [run_download, hl, finallyBlock] using hbase
    | timeoutExit st =>
      rw [hl] at hbase
      simpa [run_download, hl, finallyBlock] using hbase
    | consumed st =>
      rw [hl] at hbase
      cases tail with
      | hang => simpa [run_download, hl] using hbase
      | eof rc =>
        by_cases hrc : rc = 0 <;>
          simpa [run_download, hl, hrc, finallyBlock] using hbase

/-- C9 (counterexample): resuming a paused job whose counter is 5
re-queues it (`status = queued`, message `Resuming...`) but leaves
`files_downloaded` at 5 — `api_queue_resume` (lines 2222-2228) never
resets it, contradicting "reset to 0 exactly when the job is re-queued
from paused via resume". -/
theorem claim_C9_resume_no_reset_counterexample :
    ((api_queue_resume 7 [jC9]).headD (mkJob 0 "" "" none none)).status
        = JStatus.queued
    ∧ ((api_queue_resume 7 [jC9]).headD
        (mkJob 0 "" "" none none)).files_downloaded = 5 := by
  decide

/-- C9 (amended): within a single Runner execution the successive values
written to `files_downloaded` are strictly increasing (1, 2, 3, …), so
the counter never decreases after its first write of that run; but
resume does **not** reset the counter — `api_queue_resume` leaves every
job's `files_downloaded` unchanged, so a job resumed after downloading
some files keeps the stale value until the next run's first file line
overwrites it (with 1). -/
theorem claim_C9_files_counter_amended :
    (∀ (j0 : Job) (spawnError : Option String) (evs : List LineEvent)
        (tail : ProcTail) (tEnd : Nat),
      List.Chain' (fun a b => a < b)
        ((run_download j0 spawnError evs tail tEnd).filesWrites))
    ∧ (∀ (queue_id : Nat) (l : List Job),
        (api_queue_resume queue_id l).map Job.files_downloaded
          = l.map Job.files_downloaded) := by
  constructor
  · exact run_download_writes_chain
  · intro queue_id l
    induction l with
    | nil => rfl
    | cons j rest ih =>
      rw [api_queue_resume]
      split <;> simp [ih]

/-- C6: across any sequence of lookups against one shared collision
table (one resolve invocation), the resolver is deterministic: the
outputs at the occurrences of a candidate path `fp` are exactly
`outAt fp 0, outAt fp 1, …` in order — the first occurrence returns the
path unmodified, and the n-th subsequent occurrence (n ≥ 1) returns it
with `(n)` inserted before the extension for files or appended for
directories — and these outputs are pairwise distinct, so children with
identical names map to distinct on-disk paths. -/
theorem claim_C6_collision_resolution (calls : List RCCall) (fp : String) :
    outsFor fp calls (runResolve emptyPC calls).1 = expectedOuts fp 0 calls
    ∧ (∀ d : Bool, outAt fp 0 d = fp)
    ∧ (∀ n : Nat, 1 ≤ n →
        outAt fp n true = fp ++ "(" ++ Nat.repr n ++ ")")
    ∧ (∀ n : Nat, 1 ≤ n →
        outAt fp n false
          = (splitext fp).1 ++ "(" ++ Nat.repr n ++ ")" ++ (splitext fp).2)
    ∧ List.Pairwise (fun a b => a ≠ b) (expectedOuts fp 0 calls) := by
  refine ⟨(runResolve_occurrences fp calls emptyPC 0 rfl).1, ?_, ?_, ?_,
    expectedOuts_pairwise fp calls 0⟩
  · intro d; simp [outAt]
  · intro n hn
    unfold outAt suffixPath
    rw [if_neg (by omega), if_pos rfl]
  · intro n hn
    unfold outAt suffixPath
    rw [if_neg (by omega), if_neg (by simp)]

theorem claim_C6_collision_resolution_witness :
    outAt "/out/a.txt" 1 false = "/out/a(1).txt"
    ∧ outAt "/out/a.txt" 2 true = "/out/a.txt(2)"
    ∧ outsFor "/out/a.txt"
        [⟨"/out", "a.txt", false⟩, ⟨"/out", "a.txt", false⟩]
        (runResolve emptyPC
          [⟨"/out", "a.txt", false⟩, ⟨"/out", "a.txt", false⟩]).1
        = expectedOuts "/out/a.txt" 0
            [⟨"/out", "a.txt", false⟩, ⟨"/out", "a.txt", false⟩]
    ∧ expectedOuts "/out/a.txt" 0
        [⟨"/out", "a.txt", false⟩, ⟨"/out", "a.txt", false⟩]
        = ["/out/a.txt", "/out/a(1).txt"] := by
  refine ⟨?_, ?_,
    (claim_C6_collision_resolution
      [⟨"/out", "a.txt", false⟩, ⟨"/out", "a.txt", false⟩] "/out/a.txt").1,
    by decide⟩
  · rw [(claim_C6_collision_resolution [] "/out/a.txt").2.2.2.1 1 (by omega)]
    decide
  · rw [(claim_C6_collision_resolution [] "/out/a.txt").2.2.1 2 (by omega)]
    decide

theorem downloadLoop_attempts_le (filename : String) :
    ∀ (envs : List AttemptEnv) (errs : List String) (used : Nat),
      (downloadLoop filename envs errs used).attemptsUsed
        ≤ used + envs.length := by
  intro envs
  induction envs with
  | nil => intro errs used; simp [downloadLoop]
  | cons env rest ih =>
    intro errs used
    rw [downloadLoop]
    cases attemptStep filename env with
    | halt ok newErrs => simp
    | retry newErrs =>
      have := ih (errs ++ newErrs) (used + 1)
      simp only [List.length_cons]
      omega

/-- C7 (counterexample): a 404 on the very first attempt of a fresh
request makes `_download_file` return `False` immediately (lines
270-272): one attempt consumed, the remaining four retry slots unused,
and the HTTP error recorded — an immediately fatal failure, where the
claim requires every unexpected status to be retried up to the bounded
retry count. -/
theorem claim_C7_fatal_status_counterexample :
    (download_file "f.bin" false
      (List.replicate 5
        (AttemptEnv.resp 0 ⟨404, some 100, none, false, 0⟩))).success = false
    ∧ (download_file "f.bin" false
        (List.replicate 5
          (AttemptEnv.resp 0 ⟨404, some 100, none, false, 0⟩))).attemptsUsed = 1
    ∧ (download_file "f.bin" false
        (List.replicate 5
          (AttemptEnv.resp 0 ⟨404, some 100, none, false, 0⟩))).errors
        = ["HTTP 404 for f.bin"] := by
  decide

/-- C7 (amended): an unexpected per-file response status is retried —
up to the bounded attempt count — **except** for the four statuses 403,
404, 405 and 500, which the fetcher treats as immediately fatal for that
unit, recording an HTTP error and abandoning the remaining retries.  Any
other status failing the plain-200/206 (fresh) or 206 (ranged)
validation only causes the next attempt; the attempt count never exceeds
the retry bound. -/
theorem claim_C7_status_validation_amended :
    (∀ (filename : String) (partSize : Nat) (r : RespEnv),
      (r.statusCode = 403 ∨ r.statusCode = 404 ∨ r.statusCode = 405
        ∨ r.statusCode = 500) →
      attemptStep filename (.resp partSize r)
        = .halt false ["HTTP " ++ Nat.repr r.statusCode ++ " for " ++ filename])
    ∧ (∀ (filename : String) (partSize : Nat) (r : RespEnv),
        ¬(r.statusCode = 403 ∨ r.statusCode = 404 ∨ r.statusCode = 405
          ∨ r.statusCode = 500) →
        ((partSize = 0 ∧ ¬(r.statusCode = 200 ∨ r.statusCode = 206))
          ∨ (partSize > 0 ∧ r.statusCode ≠ 206)) →
        attemptStep filename (.resp partSize r) = .retry [])
    ∧ (∀ (filename : String) (destExistsNonEmpty : Bool)
        (envs : List AttemptEnv),
        (download_file filename destExistsNonEmpty envs).attemptsUsed
          ≤ envs.length) := by
  refine ⟨?_, ?_, ?_⟩
  · intro filename partSize r h
    show (if r.statusCode = 403 ∨ r.statusCode = 404 ∨ r.statusCode = 405
        ∨ r.statusCode = 500 then _ else _) = _
    rw [if_pos h]
  · intro filename partSize r h hval
    show (if r.statusCode = 403 ∨ r.statusCode = 404 ∨ r.statusCode = 405
        ∨ r.statusCode = 500 then _ else _) = _
    rw [if_neg h]
    rcases hval with ⟨hp, hs⟩ | ⟨hp, hs⟩
    · rw [if_pos ⟨hp, hs⟩]
    · rw [if_neg (by omega), if_pos ⟨hp, hs⟩]
  · intro filename destExistsNonEmpty envs
    unfold download_file
    split
    · simp
    · have := downloadLoop_attempts_le filename envs [] 0
      omega

theorem claim_C7_status_validation_amended_witness :
    attemptStep "f.bin" (.resp 0 ⟨404, some 100, none, false, 0⟩)
      = .halt false ["HTTP 404 for f.bin"]
    ∧ attemptStep "f.bin" (.resp 0 ⟨503, some 100, none, false, 0⟩)
      = .retry []
    ∧ (download_file "f.bin" false [AttemptEnv.noResponse]).attemptsUsed
      ≤ 1 := by
  refine ⟨?_, ?_, ?_⟩
  · rw [claim_C7_status_validation_amended.1 "f.bin" 0
      ⟨404, some 100, none, false, 0⟩ (by simp)]
    decide
  · exact claim_C7_status_validation_amended.2.1 "f.bin" 0
      ⟨503, some 100, none, false, 0⟩ (by simp) (by simp)
  · exact claim_C7_status_validation_amended.2.2 "f.bin" false
      [AttemptEnv.noResponse]

/-- C8: when token setup succeeded and the resolver registered zero
fetch units, `download()` distinguishes the two cases (lines 391-414):
a non-empty error list yields `success = false` carrying those errors
(the job side maps this to `failed`), while an empty error list yields
`success = true` with the explicit "No files found in content" message
(mapped to `completed`) — an up-to-date source is not a broken one. -/
theorem claim_C8_zero_files_mapping (url output_dir cid : String)
    (tree : GTree) (dlCount : Nat) (dlErrors : List String)
    (hurl : parse_content_id url = some cid)
    (hfiles : (build_content_tree false (pathJoin output_dir cid) cid tree
        (initBuildSt [])).files = []) :
    ((build_content_tree false (pathJoin output_dir cid) cid tree
        (initBuildSt [])).errors ≠ [] →
      (download url output_dir true [] tree dlCount dlErrors).success
          = false
      ∧ (download url output_dir true [] tree dlCount dlErrors).errors
          = (build_content_tree false (pathJoin output_dir cid) cid tree
              (initBuildSt [])).errors)
    ∧ ((build_content_tree false (pathJoin output_dir cid) cid tree
        (initBuildSt [])).errors = [] →
      (download url output_dir true [] tree dlCount dlErrors).success
          = true
      ∧ (download url output_dir true [] tree dlCount dlErrors).message
          = "No files found in content") := by
  unfold download
  rw [hurl]
  simp only [not_true, if_false, ite_not]
  constructor
  · intro herr
    simp [hfiles, herr]
  · intro herr
    simp [hfiles, herr]

set_option maxRecDepth 4000 in
theorem claim_C8_zero_files_mapping_witness :
    (download "https://gofile.io/d/abc" "/out" true []
        (GTree.gfolder "root" GChildren.nil) 0 []).success = true
    ∧ (download "https://gofile.io/d/abc" "/out" true []
        (GTree.gfolder "root" GChildren.nil) 0 []).message
      = "No files found in content" :=
  (claim_C8_zero_files_mapping "https://gofile.io/d/abc" "/out" "abc"
    (GTree.gfolder "root" GChildren.nil) 0 [] (by decide) (by decide)).2
    (by decide)

theorem pathJoin_ne_left (a b : String) (hb : b ≠ "")
    (hs : headIs b '/' = false) : pathJoin a b ≠ a := by
  have hbd : b.data ≠ [] := by
    intro hnil
    exact hb (String.ext hnil)
  have hlb : 0 < b.length := List.length_pos.mpr hbd
  unfold pathJoin
  rw [if_neg (by simp [hs])]
  intro h
  split at h <;>
    (have hlen := congrArg String.length h
     simp only [String.length_append] at hlen
     omega)

/-- C10: when the walked directory is the tree root (the parent
directory's basename equals the content id), the collision-resolved name
computed for the root folder is discarded in favour of the pre-created
root path (line 220-221) — but its candidate path has already been
entered into the shared collision table by `_resolve_naming_collision`.
A child of the root whose candidate path equals that registered path
therefore receives the `(1)` suffix although its unsuffixed path was
never used on disk: no directory was created under it and no earlier
file was registered at it. -/
theorem claim_C10_root_discard_registers_candidate
    (parent cid name link : String)
    (hroot : basename parent = cid)
    (hname : name ≠ "")
    (hns : headIs name '/' = false) :
    (build_content_tree false parent cid
        (GTree.gfolder name (GChildren.consFile name link GChildren.nil))
        (initBuildSt [])).pcount (pathJoin parent name) = some 1
    ∧ (build_content_tree false parent cid
        (GTree.gfolder name (GChildren.consFile name link GChildren.nil))
        (initBuildSt [])).mkdirs = [parent]
    ∧ (build_content_tree false parent cid
        (GTree.gfolder name (GChildren.consFile name link GChildren.nil))
        (initBuildSt [])).files
        = [{ idx := 0
             dir := dirname (suffixPath (pathJoin parent name) 1 false)
             filename := basename (suffixPath (pathJoin parent name) 1 false)
             link := link }]
    ∧ suffixPath (pathJoin parent name) 1 false ≠ pathJoin parent name
    ∧ pathJoin parent name ∉
        (build_content_tree false parent cid
          (GTree.gfolder name (GChildren.consFile name link GChildren.nil))
          (initBuildSt [])).mkdirs := by
  have hA := resolve_single_step emptyPC parent name true 0 rfl
  have hA1 : (resolve_naming_collision emptyPC parent name true).1
      = pathJoin parent name := by
    rw [hA.1]
    simp [outAt]
  have hA2 : (resolve_naming_collision emptyPC parent name true).2
      (pathJoin parent name) = some 0 := hA.2
  have hB : build_content_tree false parent cid
      (GTree.gfolder name (GChildren.consFile name link GChildren.nil))
      (initBuildSt [])
      = build_children false parent
          (GChildren.consFile name link GChildren.nil)
          { pcount := (resolve_naming_collision emptyPC parent name true).2
            files := []
            nextIdx := 0
            errors := []
            mkdirs := [parent] } := by
    simp only [build_content_tree, initBuildSt, hroot, eq_self_iff_true,
      if_true, List.nil_append]
  have hC := resolve_single_step
    (resolve_naming_collision emptyPC parent name true).2 parent name false 1
    (by rw [hA2]; rfl)
  have hC1 : (resolve_naming_collision
      (resolve_naming_collision emptyPC parent name true).2
      parent name false).1 = suffixPath (pathJoin parent name) 1 false := by
    rw [hC.1]
    simp [outAt]
  have hC2 : (resolve_naming_collision
      (resolve_naming_collision emptyPC parent name true).2
      parent name false).2 (pathJoin parent name) = some 1 := hC.2
  rw [hB]
  simp only [build_children, Bool.false_eq_true, if_false, register_file,
    hC1, List.nil_append]
  refine ⟨hC2, trivial, trivial, suffixPath_ne_self _ 1 false, ?_⟩
  simp only [List.mem_singleton]
  exact pathJoin_ne_left parent name hname hns

theorem claim_C10_root_discard_registers_candidate_witness :
    (build_content_tree false "/out/abc" "abc"
        (GTree.gfolder "x.txt" (GChildren.consFile "x.txt" "L" GChildren.nil))
        (initBuildSt [])).pcount (pathJoin "/out/abc" "x.txt") = some 1
    ∧ (build_content_tree false "/out/abc" "abc"
        (GTree.gfolder "x.txt" (GChildren.consFile "x.txt" "L" GChildren.nil))
        (initBuildSt [])).mkdirs = ["/out/abc"]
    ∧ suffixPath (pathJoin "/out/abc" "x.txt") 1 false
        ≠ pathJoin "/out/abc" "x.txt" := by
  have h := claim_C10_root_discard_registers_candidate "/out/abc" "abc"
    "x.txt" "L" (by decide) (by decide) (by decide)
  exact ⟨h.1, h.2.1, h.2.2.2.1⟩

end TrackUI
